import Mathlib

/-!
# Tug-of-war Q-learning engine (`script.js`)

Shallow embedding of the learning-and-physics core of `script.js`.

Modelling conventions.
* JavaScript numbers are modelled as exact rationals (`ℚ`): every constant of the
  source is the decimal literal it is written as (`0.08` is `8/100`), and `+ - * /`,
  `Math.min`, `Math.max`, `Math.floor` are the exact operations. IEEE rounding and the
  infinities are outside the model.
* The only place where the source can produce `undefined` or `NaN` from numeric inputs is
  the read of the force table in `actionForce`; its result has the type `Value`, and a rope
  that such a force would turn into `NaN` is `none`.
* The Q-tables keep the shape they are created with (`bins` rows of three entries); the
  indices into them are `Fin` values.
* `Math.random()` is a stream of draws in `[0, 1)`, threaded explicitly.
* The global `qTables`, `epsilon` and `stats` are explicit state.
-/

namespace TugOfWar

/-! ## Constants (lines 14 to 22) -/

/-- Line 14: `const ropeRange = 140`. -/
def ropeRange : ℚ := 140

/-- Line 15: `const ropeWinThreshold = 120`. -/
def ropeWinThreshold : ℚ := 120

/-- Line 16: `const dt = 0.08`. -/
def dt : ℚ := 8 / 100

/-- Line 17: `const friction = 0.92`. -/
def friction : ℚ := 92 / 100

/-- Line 18: `const actions = ['pull', 'hold', 'rest']`. -/
def actions : List String := ["pull", "hold", "rest"]

/-- Line 19: `const bins = 13`. -/
def bins : ℕ := 13

/-- Line 20: `const alpha = 0.25`. -/
def alpha : ℚ := 25 / 100

/-- Line 21: `const gamma = 0.9`. -/
def gamma : ℚ := 9 / 10

/-! ## State discretizer (lines 44 to 50) -/

/-- Line 44: `clamp = (v, min, max) => Math.min(Math.max(v, min), max)`. -/
def clamp (v lo hi : ℚ) : ℚ := min (max v lo) hi

/-- Lines 46 to 50: `discretize(pos)`. -/
def discretize (pos : ℚ) : ℤ :=
  let clamped := clamp pos (-ropeRange) ropeRange
  let ratio := (clamped + ropeRange) / (2 * ropeRange)
  min ((bins : ℤ) - 1) (max 0 ⌊ratio * (bins : ℚ)⌋)

/-- The index of the Q-table row read for a position: `qTables[team][discretize(pos)]`.
`discretize` never leaves `0 .. bins - 1`, so the read is always inside the table. -/
def stateBin (pos : ℚ) : Fin bins :=
  ⟨(discretize pos).toNat, by
    have h : discretize pos ≤ 12 := min_le_left _ _
    show (discretize pos).toNat < 13
    omega⟩

/-! ## Q-tables (lines 24 to 28) -/

/-- The keys of `qTables`, also the `team` argument of the functions below. -/
inductive Team where
  | left
  | right
  deriving DecidableEq, Repr

/-- One row of a Q-table, `Array(actions.length)`: an action value for each of the three
entries of `actions`. -/
abbrev Row := Fin 3 → ℚ

/-- One team's table, `Array.from({ length: bins }, ...)`: a row per state bin. -/
abbrev QTable := Fin bins → Row

/-- Lines 25 to 28: the global `qTables`. -/
structure QTables where
  left : QTable
  right : QTable

/-- The read `qTables[team]`. -/
def QTables.get (t : QTables) : Team → QTable
  | Team.left => t.left
  | Team.right => t.right

/-- The write `qTables[team][stateBin][action] = v`. -/
def QTables.set (t : QTables) (team : Team) (stateBin : Fin bins) (action : Fin 3) (v : ℚ) :
    QTables :=
  match team with
  | Team.left =>
    ⟨Function.update t.left stateBin (Function.update (t.left stateBin) action v), t.right⟩
  | Team.right =>
    ⟨t.left, Function.update t.right stateBin (Function.update (t.right stateBin) action v)⟩

/-- Lines 25 to 28: both tables start filled with `0`. -/
def initTables : QTables := ⟨fun _ _ => 0, fun _ _ => 0⟩

/-- Every entry of both tables has magnitude at most `B`. -/
def QTables.BoundedBy (t : QTables) (B : ℚ) : Prop :=
  ∀ (team : Team) (s : Fin bins) (a : Fin 3), |t.get team s a| ≤ B

/-! ## Random draws -/

/-- A value returned by `Math.random()`: a number in `[0, 1)`. -/
abbrev Draw := {u : ℚ // 0 ≤ u ∧ u < 1}

/-- The values the successive calls of `Math.random()` return. -/
abbrev Rng := ℕ → Draw

/-- One call of `Math.random()`: the value returned and the rest of the stream. -/
def Rng.next (rng : Rng) : Draw × Rng := (rng 0, fun n => rng (n + 1))

/-! ## Policy (lines 52 to 66) -/

/-- Line 55: `Math.floor(Math.random() * actions.length)`, for a draw `u` in `[0, 1)`. -/
def randomAction (u : Draw) : Fin 3 :=
  ⟨⌊u.val * 3⌋.toNat, by
    have h : ⌊u.val * 3⌋ < 3 := Int.floor_lt.mpr (by have := u.property.2; push_cast; linarith)
    omega⟩

/-- Lines 57 to 61: `let best = 0; for (let i = 1; i < actions.length; i++)
if (q[i] > q[best]) best = i; return best`. -/
def bestAction (q : Row) : Fin 3 :=
  ([1, 2] : List (Fin 3)).foldl (fun best i => if q i > q best then i else best) 0

/-- Lines 52 to 62: `chooseAction(team, stateBin, greedy)`. The tables, `epsilon` and the
random stream are the globals it reads; the stream is returned as the calls of
`Math.random()` leave it. In `!greedy && Math.random() < epsilon` the draw is made only
when `greedy` is false. -/
def chooseAction (tabs : QTables) (epsilon : ℚ) (team : Team) (stateBin : Fin bins)
    (greedy : Bool) (rng : Rng) : Fin 3 × Rng :=
  let q := tabs.get team stateBin
  if greedy then (bestAction q, rng)
  else if (rng.next.1).val < epsilon then
    (randomAction (rng.next.2.next.1), rng.next.2.next.2)
  else (bestAction q, rng.next.2)

/-- Lines 64 to 66: `maxQ(team, stateBin) = Math.max(...qTables[team][stateBin])`, the
largest of the three entries of the row. -/
def maxQ (tabs : QTables) (team : Team) (stateBin : Fin bins) : ℚ :=
  let q := tabs.get team stateBin
  max (max (q 0) (q 1)) (q 2)

/-! ## Physics (lines 68 to 72 and 89 to 96) -/

/-- The JavaScript values the force computation can produce: a number, `NaN` or
`undefined`. None of them is an exception: each is returned to the caller. -/
inductive Value where
  | num (q : ℚ)
  | nan
  | undefined
  deriving DecidableEq, Repr

/-- Unary minus, `-v`: `-undefined` and `-NaN` are `NaN`. -/
def Value.neg : Value → Value
  | Value.num q => Value.num (-q)
  | _ => Value.nan

/-- The product `c * v` with a number `c`: `c * undefined` and `c * NaN` are `NaN`. -/
def Value.scale (c : ℚ) : Value → Value
  | Value.num q => Value.num (c * q)
  | _ => Value.nan

/-- The sum `v + w`: `NaN` unless both are numbers. -/
def Value.add : Value → Value → Value
  | Value.num a, Value.num b => Value.num (a + b)
  | _, _ => Value.nan

/-- Lines 69 to 72: `actionForce(actionIndex, team)`: `base = [1.0, 0.25, -0.6][actionIndex]`
(`undefined` outside the array), then `team === 'left' ? -base : base`. -/
def actionForce (actionIndex : ℕ) (team : Team) : Value :=
  let base : Value :=
    match ([1, 25 / 100, -(6 / 10)] : List ℚ)[actionIndex]? with
    | some b => Value.num b
    | none => Value.undefined
  if team = Team.left then base.neg else base

/-- Lines 76 to 77: the rope, `ropePos` and `ropeVel`. -/
structure Rope where
  ropePos : ℚ
  ropeVel : ℚ
  deriving DecidableEq

/-- Lines 90 to 92: `totalForce = 2 * actionForce(leftAction, 'left') +
2 * actionForce(rightAction, 'right')`. -/
def totalForce (leftAction rightAction : ℕ) : Value :=
  (Value.scale 2 (actionForce leftAction Team.left)).add
    (Value.scale 2 (actionForce rightAction Team.right))

/-- Lines 94 to 96: `ropeVel += totalForce * dt; ropeVel *= friction; ropePos += ropeVel`. -/
def integrate (rope : Rope) (force : ℚ) : Rope :=
  let ropeVel := rope.ropeVel + force * dt
  let ropeVel := ropeVel * friction
  let ropePos := rope.ropePos + ropeVel
  { ropePos := ropePos, ropeVel := ropeVel }

/-- Lines 89 to 96: the physics of one tick for the two chosen action indices. A force
that is not a number would turn `ropeVel` and `ropePos` into `NaN`; the rope of the model
holds numbers only, so that case is `none`. -/
def physicsTick (rope : Rope) (leftAction rightAction : ℕ) : Option Rope :=
  match totalForce leftAction rightAction with
  | Value.num force => some (integrate rope force)
  | _ => none

/-! ## Rewards and termination (lines 98 to 115) -/

/-- What `winner` and the return value of `runEpisode` can be: `null`, `'left'`, `'right'`
or `'draw'`. -/
inductive Winner where
  | null
  | left
  | right
  | draw
  deriving DecidableEq, Repr

/-- The locals `terminal`, `winner`, `leftReward`, `rightReward` after line 115. -/
structure Scored where
  terminal : Bool
  winner : Winner
  leftReward : ℚ
  rightReward : ℚ
  deriving DecidableEq

/-- Lines 99 to 101: `delta = ropePos - prevPos; leftReward = -delta * 2;
rightReward = delta * 2`, as the pair `(leftReward, rightReward)`. -/
def shapingRewards (prevPos ropePos : ℚ) : ℚ × ℚ :=
  let delta := ropePos - prevPos
  (-delta * 2, delta * 2)

/-- Lines 103 to 115: the terminal check, which amends the two rewards in place. -/
def terminalCheck (ropePos leftReward rightReward : ℚ) : Scored :=
  if ropePos ≤ -ropeWinThreshold then
    { terminal := true, winner := Winner.left,
      leftReward := leftReward + 8, rightReward := rightReward - 8 }
  else if ropePos ≥ ropeWinThreshold then
    { terminal := true, winner := Winner.right,
      leftReward := leftReward - 8, rightReward := rightReward + 8 }
  else
    { terminal := false, winner := Winner.null,
      leftReward := leftReward, rightReward := rightReward }

/-- Lines 98 to 115: the rewards and the terminal flag of a tick that moved the rope from
`prevPos` to `ropePos`. -/
def scoreTick (prevPos ropePos : ℚ) : Scored :=
  terminalCheck ropePos (shapingRewards prevPos ropePos).1 (shapingRewards prevPos ropePos).2

/-! ## Learner (lines 119 to 127) -/

/-- Lines 120 to 124: the closure `updateQ(team, action, reward)`, with the `state`,
`nextState` and `terminal` it captures. -/
def updateQ (tabs : QTables) (state nextState : Fin bins) (terminal : Bool) (team : Team)
    (action : Fin 3) (reward : ℚ) : QTables :=
  let qVal := tabs.get team state action
  let target := reward + (if terminal then 0 else gamma * maxQ tabs team nextState)
  tabs.set team state action (qVal + alpha * (target - qVal))

/-- Lines 126 to 127: `updateQ('left', leftAction, leftReward);
updateQ('right', rightAction, rightReward)`. -/
def learn (tabs : QTables) (state nextState : Fin bins) (scored : Scored)
    (leftAction rightAction : Fin 3) : QTables :=
  updateQ
    (updateQ tabs state nextState scored.terminal Team.left leftAction scored.leftReward)
    state nextState scored.terminal Team.right rightAction scored.rightReward

/-! ## Episode orchestrator (lines 75 to 138) -/

/-- Lines 31 to 36: the global `stats`. -/
structure Stats where
  episodes : ℕ
  leftWins : ℕ
  rightWins : ℕ
  lastEpisodeSteps : ℕ
  deriving DecidableEq, Repr

/-- The mutable globals of the engine, with the random stream. -/
structure Engine where
  qTables : QTables
  epsilon : ℚ
  stats : Stats
  rng : Rng

/-- The locals and tables at the end of one pass through the loop body (line 128). -/
structure Tick where
  rope : Rope
  qTables : QTables
  terminal : Bool
  winner : Winner

/-- Lines 87 to 127: the loop body of `runEpisode` once both actions are chosen: physics,
rewards, terminal check and the two table updates. -/
def trainTick (rope : Rope) (tabs : QTables) (leftAction rightAction : Fin 3) : Option Tick :=
  (physicsTick rope leftAction.val rightAction.val).map fun next =>
    let scored := scoreTick rope.ropePos next.ropePos
    { rope := next,
      qTables := learn tabs (stateBin rope.ropePos) (stateBin next.ropePos) scored
        leftAction rightAction,
      terminal := scored.terminal,
      winner := scored.winner }

/-- Line 78: `const maxSteps = 320`. -/
def maxSteps : ℕ := 320

/-- Lines 84 to 85: `leftAction = chooseAction('left', state)`, then
`rightAction = chooseAction('right', state)`, with the random stream left after both. -/
def chooseBoth (tabs : QTables) (epsilon : ℚ) (state : Fin bins) (rng : Rng) :
    Fin 3 × Fin 3 × Rng :=
  let left := chooseAction tabs epsilon Team.left state false rng
  let right := chooseAction tabs epsilon Team.right state false left.2
  (left.1, right.1, right.2)

/-- Lines 80 to 137: the loop `for (let step = 0; step < maxSteps; step++)` and the lines
after it, with `remaining = maxSteps - step` passes still to run. -/
def episodeLoop : ℕ → ℕ → Rope → Engine → Option (Winner × Engine)
  | 0, _, _, e =>
    some (Winner.draw,
      ⟨e.qTables, e.epsilon,
        ⟨e.stats.episodes, e.stats.leftWins, e.stats.rightWins, maxSteps⟩, e.rng⟩)
  | remaining + 1, step, rope, e =>
    let chosen := chooseBoth e.qTables e.epsilon (stateBin rope.ropePos) e.rng
    (trainTick rope e.qTables chosen.1 chosen.2.1).bind fun t =>
      if t.terminal then
        some (t.winner,
          ⟨t.qTables, e.epsilon,
            ⟨e.stats.episodes, e.stats.leftWins, e.stats.rightWins, step + 1⟩, chosen.2.2⟩)
      else
        episodeLoop remaining (step + 1) t.rope ⟨t.qTables, e.epsilon, e.stats, chosen.2.2⟩

/-- Lines 75 to 138: `runEpisode()`. -/
def runEpisode (e : Engine) : Option (Winner × Engine) :=
  episodeLoop maxSteps 0 ⟨0, 0⟩ e

/-- The rope, tables and random stream at the top of the loop body of `runEpisode`. -/
structure LoopState where
  rope : Rope
  qTables : QTables
  rng : Rng

/-- Lines 81 to 127: one pass through the loop body of `runEpisode`, up to the test
`if (terminal)` of line 129: the state it leaves for the next pass. -/
def loopPass (epsilon : ℚ) (s : LoopState) : Option LoopState :=
  let chosen := chooseBoth s.qTables epsilon (stateBin s.rope.ropePos) s.rng
  (trainTick s.rope s.qTables chosen.1 chosen.2.1).map fun t =>
    ⟨t.rope, t.qTables, chosen.2.2⟩

/-- The state after `k` passes through the loop body of `runEpisode` from the state `s`,
the test of line 129 left aside: `(passes epsilon k s).rope.ropePos` is the post-step
position of tick `k`. -/
def passes (epsilon : ℚ) : ℕ → LoopState → Option LoopState
  | 0, s => some s
  | k + 1, s => (passes epsilon k s).bind (loopPass epsilon)

/-- The state in which `runEpisode` enters its loop: lines 76 to 77, `ropePos = 0` and
`ropeVel = 0`, with the engine's tables and random stream. -/
def episodeStart (e : Engine) : LoopState := ⟨⟨0, 0⟩, e.qTables, e.rng⟩

/-- The rope after `k` ticks of the physics of lines 89 to 96 from `{0, 0}`, when tick
`j + 1` is made with the action pair `acts j`. -/
def ropeTrace (acts : ℕ → Fin 3 × Fin 3) : ℕ → Option Rope
  | 0 => some ⟨0, 0⟩
  | k + 1 => (ropeTrace acts k).bind fun rope =>
      physicsTick rope (acts k).1.val (acts k).2.val

/-! ## Training driver (lines 141 to 162) -/

/-- Lines 147 to 150: one pass of the loop of `trainEpisodes`: `winner = runEpisode()`,
`stats.episodes += 1`, then `leftWins` or `rightWins` by the winner. The value of `winner`
is returned with the engine. -/
def trainOne (e : Engine) : Option (Winner × Engine) :=
  (runEpisode e).map fun r =>
    (r.1,
      ⟨r.2.qTables, r.2.epsilon,
        ⟨r.2.stats.episodes + 1,
          if r.1 = Winner.left then r.2.stats.leftWins + 1 else r.2.stats.leftWins,
          if r.1 = Winner.left then r.2.stats.rightWins
          else if r.1 = Winner.right then r.2.stats.rightWins + 1 else r.2.stats.rightWins,
          r.2.stats.lastEpisodeSteps⟩,
        r.2.rng⟩)

/-- Lines 146 to 157: the loop `for (let i = 0; i < count; i++)`, with the values
`runEpisode()` returned, in order. The calls of `renderStats` and the `await` between
episodes touch nothing of the engine. -/
def trainLoop : ℕ → Engine → Option (List Winner × Engine)
  | 0, e => some ([], e)
  | n + 1, e => (trainOne e).bind fun r =>
      (trainLoop n r.2).map fun rest => (r.1 :: rest.1, rest.2)

/-- Lines 141 to 162: `trainEpisodes(count)`: `epsilon = Math.max(0.05, epsilon * 0.98)`,
then the loop. -/
def trainEpisodes (count : ℕ) (e : Engine) : Option (List Winner × Engine) :=
  trainLoop count ⟨e.qTables, max (5 / 100) (e.epsilon * (98 / 100)), e.stats, e.rng⟩

/-! ## Demo (lines 166 to 203) -/

/-- Lines 179 to 197: one call of `step` in `playDemo`, drawing aside: both teams choose
greedily, the physics of lines 183 to 189, and whether the branch of line 191
(`ropePos <= -ropeWinThreshold || ropePos >= ropeWinThreshold`) ends the demo. -/
def demoStep (tabs : QTables) (epsilon : ℚ) (rng : Rng) (rope : Rope) : Option (Rope × Bool) :=
  let state := stateBin rope.ropePos
  let left := chooseAction tabs epsilon Team.left state true rng
  let right := chooseAction tabs epsilon Team.right state true left.2
  (physicsTick rope left.1.val right.1.val).map fun next =>
    (next, decide (next.ropePos ≤ -ropeWinThreshold ∨ next.ropePos ≥ ropeWinThreshold))

/-- The demo after at most `k` animation frames from the rope `rope`: the rope reached and
whether the demo has ended; `step` is called again (line 199) only while it has not. -/
def demoRun (tabs : QTables) (epsilon : ℚ) (rng : Rng) : ℕ → Rope → Option (Rope × Bool)
  | 0, rope => some (rope, false)
  | k + 1, rope => (demoStep tabs epsilon rng rope).bind fun r =>
      if r.2 then some (r.1, true) else demoRun tabs epsilon rng k r.1

/-! ## Sample data for concrete checks -/

/-- A random stream whose every draw is `1/2`. -/
def halfRng : Rng := fun _ => ⟨1 / 2, by norm_num⟩

/-- The engine as the script starts it: zero tables, `epsilon = 0.18`, zero statistics,
with the stream `halfRng`. -/
def freshEngine : Engine := ⟨initTables, 18 / 100, ⟨0, 0, 0, 0⟩, halfRng⟩

/-! ## Reference reward model, following the specification's words -/

/-- The bonus `b` of the reward model: `+8` when the tick is a terminal win for left, `-8`
when it is a terminal win for right, `0` otherwise. -/
def specBonus (terminal : Bool) (winner : Winner) : ℚ :=
  if terminal = true ∧ winner = Winner.left then 8
  else if terminal = true ∧ winner = Winner.right then -8
  else 0

/-! ## Reference integrator, following the specification's words -/

/-- The specification's force table: `pull` gives `1.0`, `hold` gives `0.25`, `rest`
gives `-0.6`. -/
def specBase : Fin 3 → ℚ
  | 0 => 1
  | 1 => 1 / 4
  | 2 => -(3 / 5)

/-- The specification's net force `F = 2 * (-base[l]) + 2 * base[r]`. -/
def specNetForce (l r : Fin 3) : ℚ := 2 * (-(specBase l)) + 2 * specBase r

/-- The specification's new velocity `(velocity + F * dt) * friction` with `dt = 0.08`
and `friction = 0.92`. -/
def specVelocity (velocity : ℚ) (l r : Fin 3) : ℚ :=
  (velocity + specNetForce l r * (8 / 100)) * (92 / 100)

/-- The specification's new position `position + new velocity`. -/
def specPosition (position velocity : ℚ) (l r : Fin 3) : ℚ :=
  position + specVelocity velocity l r

/-! ## Discretizer: range, edges, monotonicity -/

theorem clamp_mono (lo hi : ℚ) {p q : ℚ} (h : p ≤ q) : clamp p lo hi ≤ clamp q lo hi :=
  min_le_min (max_le_max h le_rfl) le_rfl

/-- C1: for every position `p`, in range or not, `discretize p` is an integer index with
`0 ≤ discretize p ≤ bins - 1 = 12`. -/
theorem discretize_range (p : ℚ) :
    0 ≤ discretize p ∧ discretize p ≤ (bins : ℤ) - 1 ∧ (bins : ℤ) - 1 = 12 := by
  refine ⟨?_, ?_, by norm_num [bins]⟩
  · exact le_min (by norm_num [bins]) (le_max_left _ _)
  · exact min_le_left _ _

/-- C2: `discretize` clamps to the edge bins: every position at or below `-ropeRange = -140`
maps to bin `0`, every position at or above `ropeRange = 140` maps to bin `bins - 1 = 12`;
in particular the two edges `-ropeRange` and `ropeRange` map to `0` and `bins - 1`. -/
theorem discretize_edges :
    (∀ p : ℚ, p ≤ -ropeRange → discretize p = 0) ∧
    (∀ p : ℚ, ropeRange ≤ p → discretize p = (bins : ℤ) - 1) ∧
    ropeRange = 140 ∧ (bins : ℤ) - 1 = 12 ∧
    discretize (-ropeRange) = 0 ∧ discretize ropeRange = (bins : ℤ) - 1 := by
  have lo : ∀ p : ℚ, p ≤ -ropeRange → discretize p = 0 := by
    intro p hp
    have hc : clamp p (-ropeRange) ropeRange = -ropeRange := by
      unfold clamp
      rw [max_eq_right hp]
      exact min_eq_left (by norm_num [ropeRange])
    simp only [discretize, hc]
    norm_num [bins]
  have hi : ∀ p : ℚ, ropeRange ≤ p → discretize p = (bins : ℤ) - 1 := by
    intro p hp
    have hc : clamp p (-ropeRange) ropeRange = ropeRange := by
      unfold clamp
      exact min_eq_right (le_trans hp (le_max_left _ _))
    simp only [discretize, hc]
    norm_num [bins, ropeRange]
  exact ⟨lo, hi, rfl, by norm_num [bins], lo _ le_rfl, hi _ le_rfl⟩

/-- Witness for C2: position `-200` lies below `-ropeRange` and `200` above `ropeRange`. -/
theorem discretize_edges_witness :
    (-200 : ℚ) ≤ -ropeRange ∧ discretize (-200) = 0 ∧
    ropeRange ≤ (200 : ℚ) ∧ discretize 200 = (bins : ℤ) - 1 :=
  ⟨by norm_num [ropeRange], discretize_edges.1 (-200) (by norm_num [ropeRange]),
    by norm_num [ropeRange], discretize_edges.2.1 200 (by norm_num [ropeRange])⟩

/-- C3: `discretize` is monotonic non-decreasing: `p ≤ q` gives
`discretize p ≤ discretize q`. -/
theorem discretize_mono (p q : ℚ) (h : p ≤ q) : discretize p ≤ discretize q := by
  have hc := clamp_mono (-ropeRange) ropeRange h
  have hr : (clamp p (-ropeRange) ropeRange + ropeRange) / (2 * ropeRange) * (bins : ℚ) ≤
      (clamp q (-ropeRange) ropeRange + ropeRange) / (2 * ropeRange) * (bins : ℚ) := by
    have h2 : (0 : ℚ) < 2 * ropeRange := by norm_num [ropeRange]
    have hb : (0 : ℚ) ≤ (bins : ℚ) := by norm_num [bins]
    exact mul_le_mul_of_nonneg_right
      (div_le_div_of_nonneg_right (by linarith) h2.le) hb
  exact min_le_min le_rfl (max_le_max le_rfl (Int.floor_mono hr))

/-- Witness for C3: positions `-30 ≤ 75` land in bins `5 ≤ 9`. -/
theorem discretize_mono_witness :
    (-30 : ℚ) ≤ 75 ∧ discretize (-30) ≤ discretize 75 :=
  ⟨by norm_num, discretize_mono (-30) 75 (by norm_num)⟩

/-! ## Policy: the greedy choice -/

theorem bestAction_cases (q : Row) :
    bestAction q =
      if q 1 > q 0 then (if q 2 > q 1 then 2 else 1) else (if q 2 > q 0 then 2 else 0) := by
  simp only [bestAction, List.foldl]
  split_ifs <;> rfl

theorem bestAction_max (q : Row) (j : Fin 3) : q j ≤ q (bestAction q) := by
  rw [bestAction_cases]
  fin_cases j <;> split_ifs <;>
    simp only [Fin.zero_eta, Fin.mk_one, Fin.reduceFinMk] <;> linarith

theorem bestAction_first (q : Row) (j : Fin 3) (h : q j = q (bestAction q)) :
    bestAction q ≤ j := by
  rw [bestAction_cases] at h ⊢
  fin_cases j <;> split_ifs at h ⊢ <;>
    simp only [Fin.zero_eta, Fin.mk_one, Fin.reduceFinMk] at h ⊢ <;>
    first
      | decide
      | (exfalso; linarith)

theorem maxQ_eq_best (tabs : QTables) (team : Team) (s : Fin bins) :
    maxQ tabs team s = tabs.get team s (bestAction (tabs.get team s)) := by
  apply le_antisymm
  · exact max_le (max_le (bestAction_max _ 0) (bestAction_max _ 1)) (bestAction_max _ 2)
  · show tabs.get team s (bestAction (tabs.get team s)) ≤
      max (max (tabs.get team s 0) (tabs.get team s 1)) (tabs.get team s 2)
    generalize bestAction (tabs.get team s) = a
    fin_cases a
    · exact le_trans (le_max_left _ _) (le_max_left _ _)
    · exact le_trans (le_max_right _ _) (le_max_left _ _)
    · exact le_max_right _ _

/-- C4: with `greedy = true`, for every team, state, table, `epsilon` and random stream,
`chooseAction` returns an action whose value is the maximum of the team's row (`maxQ`, at
least every entry of the row), and the lowest such index; it makes no random draw (the
stream is returned untouched), and its result is the same for any other tables, team, state,
`epsilon` and stream that present the same row. -/
theorem chooseAction_greedy (tabs : QTables) (epsilon : ℚ) (team : Team) (s : Fin bins)
    (rng : Rng) :
    tabs.get team s (chooseAction tabs epsilon team s true rng).1 = maxQ tabs team s ∧
    (∀ j : Fin 3,
      tabs.get team s j ≤ tabs.get team s (chooseAction tabs epsilon team s true rng).1) ∧
    (∀ j : Fin 3, tabs.get team s j = maxQ tabs team s →
      (chooseAction tabs epsilon team s true rng).1 ≤ j) ∧
    (chooseAction tabs epsilon team s true rng).2 = rng ∧
    (∀ (tabs' : QTables) (epsilon' : ℚ) (team' : Team) (s' : Fin bins) (rng' : Rng),
      tabs'.get team' s' = tabs.get team s →
      (chooseAction tabs' epsilon' team' s' true rng').1 =
        (chooseAction tabs epsilon team s true rng).1) := by
  have hc : ∀ (t : QTables) (e : ℚ) (tm : Team) (b : Fin bins) (r : Rng),
      chooseAction t e tm b true r = (bestAction (t.get tm b), r) := by
    intro t e tm b r
    simp [chooseAction]
  refine ⟨?_, ?_, ?_, ?_, ?_⟩
  · rw [hc, maxQ_eq_best]
  · intro j
    rw [hc]
    exact bestAction_max _ j
  · intro j hj
    rw [hc]
    rw [maxQ_eq_best] at hj
    exact bestAction_first _ j hj
  · rw [hc]
  · intro tabs' epsilon' team' s' rng' h
    rw [hc, hc, h]

/-- Witness for C4: on the row `[1, 3, 3]` of the left table (every other row zero) the
greedy choice is index `1`, the first of the two maximal entries, whatever the draws. -/
theorem chooseAction_greedy_witness :
    (chooseAction ⟨fun _ => ![1, 3, 3], fun _ _ => 0⟩ (18 / 100) Team.left (stateBin 0) true
      (fun _ => ⟨0, by norm_num⟩)).1 = 1 := by
  have h := (chooseAction_greedy ⟨fun _ => ![1, 3, 3], fun _ _ => 0⟩ (18 / 100) Team.left (stateBin 0)
    (fun _ => ⟨0, by norm_num⟩)).2.2.1
  have h1 := h 1 (by simp [QTables.get, maxQ])
  have h0 : (chooseAction ⟨fun _ => ![1, 3, 3], fun _ _ => 0⟩ (18 / 100) Team.left (stateBin 0) true
      (fun _ => ⟨0, by norm_num⟩)).1 ≠ 0 := by
    intro h0
    have h2 := (chooseAction_greedy ⟨fun _ => ![1, 3, 3], fun _ _ => 0⟩ (18 / 100) Team.left (stateBin 0)
      (fun _ => ⟨0, by norm_num⟩)).1
    rw [h0] at h2
    simp [QTables.get, maxQ] at h2
  omega

/-! ## Physics: one tick against the reference integrator -/

/-- C5: for every rope state and every pair of action indices in `{0, 1, 2}`, the physics
of one tick is the reference integrator: net force `2 * (-base[l]) + 2 * base[r]` with
`base = [1.0, 0.25, -0.6]`, new velocity `(velocity + F * dt) * friction` with `dt = 0.08`
and `friction = 0.92`, new position `position + new velocity`; a left pull is the force
`-1` and a right pull the force `+1`. -/
theorem physicsTick_eq_spec (rope : Rope) (l r : Fin 3) :
    totalForce l.val r.val = Value.num (specNetForce l r) ∧
    physicsTick rope l.val r.val =
      some ⟨specPosition rope.ropePos rope.ropeVel l r, specVelocity rope.ropeVel l r⟩ ∧
    actionForce 0 Team.left = Value.num (-1) ∧ actionForce 0 Team.right = Value.num 1 := by
  refine ⟨?_, ?_, ?_, ?_⟩
  · fin_cases l <;> fin_cases r <;>
      simp [totalForce, actionForce, Value.scale, Value.add, Value.neg, specNetForce,
        specBase] <;> norm_num
  · fin_cases l <;> fin_cases r <;>
      simp [physicsTick, totalForce, actionForce, Value.scale, Value.add, Value.neg,
        integrate, specPosition, specVelocity, specNetForce, specBase, dt, friction] <;>
      norm_num
  · simp [actionForce, Value.neg]
  · simp [actionForce]

/-! ## Termination and rewards -/

/-- C6: for every post-step position `x` (and whatever the shaping rewards), the terminal
check gives terminal with winner `'left'` iff `x ≤ -120`, terminal with winner `'right'`
iff `x ≥ 120`, and non-terminal with winner `null` iff `-120 < x < 120`; the result is always
one of these three, which exclude each other. -/
theorem terminalCheck_classify (x leftReward rightReward : ℚ) :
    (((terminalCheck x leftReward rightReward).terminal = true ∧
        (terminalCheck x leftReward rightReward).winner = Winner.left) ↔ x ≤ -120) ∧
    (((terminalCheck x leftReward rightReward).terminal = true ∧
        (terminalCheck x leftReward rightReward).winner = Winner.right) ↔ x ≥ 120) ∧
    (((terminalCheck x leftReward rightReward).terminal = false ∧
        (terminalCheck x leftReward rightReward).winner = Winner.null) ↔
      (-120 < x ∧ x < 120)) ∧
    (((terminalCheck x leftReward rightReward).terminal,
        (terminalCheck x leftReward rightReward).winner) = (true, Winner.left) ∨
      ((terminalCheck x leftReward rightReward).terminal,
        (terminalCheck x leftReward rightReward).winner) = (true, Winner.right) ∨
      ((terminalCheck x leftReward rightReward).terminal,
        (terminalCheck x leftReward rightReward).winner) = (false, Winner.null)) ∧
    ropeWinThreshold = 120 := by
  have h120 : ropeWinThreshold = 120 := rfl
  unfold terminalCheck
  rw [h120]
  by_cases h1 : x ≤ -120
  · have h2 : ¬ x ≥ 120 := by intro h; linarith
    simp [h1, h2]
  · by_cases h2 : x ≥ 120
    · simp [h1, h2]
    · simp [h1, h2]
      constructor <;> linarith [not_le.mp h1, not_le.mp h2]

/-- C7: for every tick with `delta = ropePos - prevPos`, `leftReward = -2 * delta + b` and
`rightReward = 2 * delta - b`, where `b` is `+8` on a terminal win for left, `-8` on a
terminal win for right and `0` on a non-terminal tick. The last pass of the loop is no
exception: when it is non-terminal, `runEpisode` returns `'draw'` with the tables exactly as
the two `updateQ` calls of that pass wrote them, made with `terminal = false` and the
rewards `-2 * delta` and `2 * delta`, and nothing else is adjusted. -/
theorem reward_model (prevPos ropePos : ℚ) (step : ℕ) (rope : Rope) (e : Engine) :
    (scoreTick prevPos ropePos).leftReward =
      -2 * (ropePos - prevPos) +
        specBonus (scoreTick prevPos ropePos).terminal (scoreTick prevPos ropePos).winner ∧
    (scoreTick prevPos ropePos).rightReward =
      2 * (ropePos - prevPos) -
        specBonus (scoreTick prevPos ropePos).terminal (scoreTick prevPos ropePos).winner ∧
    ((scoreTick prevPos ropePos).terminal = false →
      (scoreTick prevPos ropePos).leftReward = -2 * (ropePos - prevPos) ∧
      (scoreTick prevPos ropePos).rightReward = 2 * (ropePos - prevPos)) ∧
    (∀ t : Tick,
      trainTick rope e.qTables
        (chooseBoth e.qTables e.epsilon (stateBin rope.ropePos) e.rng).1
        (chooseBoth e.qTables e.epsilon (stateBin rope.ropePos) e.rng).2.1 = some t →
      t.terminal = false →
      episodeLoop 1 step rope e =
        some (Winner.draw,
          ⟨t.qTables, e.epsilon,
            ⟨e.stats.episodes, e.stats.leftWins, e.stats.rightWins, maxSteps⟩,
            (chooseBoth e.qTables e.epsilon (stateBin rope.ropePos) e.rng).2.2⟩) ∧
      t.qTables =
        learn e.qTables (stateBin rope.ropePos) (stateBin t.rope.ropePos)
          ⟨false, Winner.null, -2 * (t.rope.ropePos - rope.ropePos),
            2 * (t.rope.ropePos - rope.ropePos)⟩
          (chooseBoth e.qTables e.epsilon (stateBin rope.ropePos) e.rng).1
          (chooseBoth e.qTables e.epsilon (stateBin rope.ropePos) e.rng).2.1) := by
  have hs : ∀ p x : ℚ,
      (scoreTick p x).leftReward =
        -2 * (x - p) + specBonus (scoreTick p x).terminal (scoreTick p x).winner ∧
      (scoreTick p x).rightReward =
        2 * (x - p) - specBonus (scoreTick p x).terminal (scoreTick p x).winner := by
    intro p x
    unfold scoreTick terminalCheck shapingRewards specBonus
    by_cases h1 : x ≤ -ropeWinThreshold
    · simp only [h1, if_true]
      constructor <;> simp <;> ring
    · by_cases h2 : x ≥ ropeWinThreshold
      · simp only [h1, h2, if_true, if_false]
        constructor <;> simp <;> ring
      · simp only [h1, h2, if_false]
        constructor <;> simp <;> ring
  have hn : ∀ p x : ℚ, (scoreTick p x).terminal = false →
      (scoreTick p x).winner = Winner.null ∧
      (scoreTick p x).leftReward = -2 * (x - p) ∧
      (scoreTick p x).rightReward = 2 * (x - p) := by
    intro p x
    unfold scoreTick terminalCheck shapingRewards
    by_cases h1 : x ≤ -ropeWinThreshold
    · simp [h1]
    · by_cases h2 : x ≥ ropeWinThreshold
      · simp [h1, h2]
      · simp only [h1, h2, if_false]
        intro _
        refine ⟨?_, ?_, ?_⟩ <;> first | trivial | ring
  refine ⟨(hs prevPos ropePos).1, (hs prevPos ropePos).2,
    fun h => (hn prevPos ropePos h).2, ?_⟩
  intro t ht hterm
  have hq : t.qTables =
      learn e.qTables (stateBin rope.ropePos) (stateBin t.rope.ropePos)
        ⟨false, Winner.null, -2 * (t.rope.ropePos - rope.ropePos),
          2 * (t.rope.ropePos - rope.ropePos)⟩
        (chooseBoth e.qTables e.epsilon (stateBin rope.ropePos) e.rng).1
        (chooseBoth e.qTables e.epsilon (stateBin rope.ropePos) e.rng).2.1 := by
    unfold trainTick at ht
    rcases hp : physicsTick rope
        (chooseBoth e.qTables e.epsilon (stateBin rope.ropePos) e.rng).1.val
        (chooseBoth e.qTables e.epsilon (stateBin rope.ropePos) e.rng).2.1.val with _ | next
    · rw [hp] at ht
      simp at ht
    · rw [hp] at ht
      simp only [Option.map_some', Option.some.injEq] at ht
      subst ht
      simp only at hterm ⊢
      obtain ⟨hw, hl, hr⟩ := hn rope.ropePos next.ropePos hterm
      have hsc : scoreTick rope.ropePos next.ropePos =
          ⟨false, Winner.null, -2 * (next.ropePos - rope.ropePos),
            2 * (next.ropePos - rope.ropePos)⟩ := by
        rcases hsv : scoreTick rope.ropePos next.ropePos with ⟨a, b, c, d⟩
        rw [hsv] at hterm hw hl hr
        simp only at hterm hw hl hr
        rw [hterm, hw, hl, hr]
      rw [hsc]
  refine ⟨?_, hq⟩
  simp only [episodeLoop, ht, Option.some_bind, hterm, episodeLoop]
  simp

/-- Witness for C7: the fresh engine at the rope's start `{0, 0}`; both teams choose
`pull`, the rope stays at `0`, the pass is non-terminal and the episode, were it the last
pass, ends as `'draw'`. -/
theorem reward_model_witness :
    trainTick ⟨0, 0⟩ freshEngine.qTables
        (chooseBoth freshEngine.qTables freshEngine.epsilon (stateBin 0) freshEngine.rng).1
        (chooseBoth freshEngine.qTables freshEngine.epsilon (stateBin 0) freshEngine.rng).2.1 =
      some ⟨⟨0, 0⟩, learn initTables (stateBin 0) (stateBin 0) ⟨false, Winner.null, 0, 0⟩ 0 0,
        false, Winner.null⟩ ∧
    episodeLoop 1 319 ⟨0, 0⟩ freshEngine =
      some (Winner.draw,
        ⟨learn initTables (stateBin 0) (stateBin 0) ⟨false, Winner.null, 0, 0⟩ 0 0, 18 / 100,
          ⟨0, 0, 0, 320⟩, fun n => halfRng (n + 1 + 1)⟩) := by
  have hc : chooseBoth freshEngine.qTables freshEngine.epsilon (stateBin 0) freshEngine.rng =
      (0, 0, fun n => halfRng (n + 1 + 1)) := by
    simp only [chooseBoth, chooseAction, freshEngine, Rng.next, halfRng, initTables,
      QTables.get, bestAction_cases]
    norm_num
  have ht : trainTick ⟨0, 0⟩ freshEngine.qTables
        (chooseBoth freshEngine.qTables freshEngine.epsilon (stateBin 0) freshEngine.rng).1
        (chooseBoth freshEngine.qTables freshEngine.epsilon (stateBin 0) freshEngine.rng).2.1 =
      some ⟨⟨0, 0⟩, learn initTables (stateBin 0) (stateBin 0) ⟨false, Winner.null, 0, 0⟩ 0 0,
        false, Winner.null⟩ := by
    rw [hc]
    simp [trainTick, physicsTick, totalForce, actionForce, Value.scale, Value.add, Value.neg,
      integrate, scoreTick, terminalCheck, shapingRewards, ropeWinThreshold, freshEngine]
    norm_num
  refine ⟨ht, ?_⟩
  have h := (reward_model 0 0 319 ⟨0, 0⟩ freshEngine).2.2.2 _ ht rfl
  rw [h.1, hc]
  rfl

/-- C8, as stated, fails. On the left win that moves the rope from `-119` to `-121` the
rewards are `(4, -4)` before and `(12, -12)` after the bonuses, and on the right win from
`119` to `121` they are `(-4, 4)` before and `(-12, 12)` after: in both the sum
`leftReward + rightReward` changes by `0`, not by `16` and not by `-16`. -/
theorem reward_sum_counterexample :
    ((scoreTick (-119) (-121)).terminal = true ∧
      (scoreTick (-119) (-121)).winner = Winner.left ∧
      ((scoreTick (-119) (-121)).leftReward + (scoreTick (-119) (-121)).rightReward) -
        ((shapingRewards (-119) (-121)).1 + (shapingRewards (-119) (-121)).2) ≠ 16 ∧
      ((scoreTick (-119) (-121)).leftReward + (scoreTick (-119) (-121)).rightReward) -
        ((shapingRewards (-119) (-121)).1 + (shapingRewards (-119) (-121)).2) ≠ -16) ∧
    ((scoreTick 119 121).terminal = true ∧
      (scoreTick 119 121).winner = Winner.right ∧
      ((scoreTick 119 121).leftReward + (scoreTick 119 121).rightReward) -
        ((shapingRewards 119 121).1 + (shapingRewards 119 121).2) ≠ 16 ∧
      ((scoreTick 119 121).leftReward + (scoreTick 119 121).rightReward) -
        ((shapingRewards 119 121).1 + (shapingRewards 119 121).2) ≠ -16) := by
  constructor <;>
    norm_num [scoreTick, terminalCheck, shapingRewards, ropeWinThreshold]

/-- C8, amended: for every transition `leftReward = -rightReward` before the terminal
bonuses are applied and also after them: the bonuses leave the sum
`leftReward + rightReward` unchanged. It is the difference `leftReward - rightReward` that
changes by exactly `+16` on a left win, `-16` on a right win and `0` when nobody wins. -/
theorem reward_symmetry (prevPos ropePos : ℚ) :
    (shapingRewards prevPos ropePos).1 = -(shapingRewards prevPos ropePos).2 ∧
    (scoreTick prevPos ropePos).leftReward + (scoreTick prevPos ropePos).rightReward =
      (shapingRewards prevPos ropePos).1 + (shapingRewards prevPos ropePos).2 ∧
    (scoreTick prevPos ropePos).leftReward = -(scoreTick prevPos ropePos).rightReward ∧
    ((scoreTick prevPos ropePos).leftReward - (scoreTick prevPos ropePos).rightReward) -
        ((shapingRewards prevPos ropePos).1 - (shapingRewards prevPos ropePos).2) =
      (if (scoreTick prevPos ropePos).terminal = true ∧
          (scoreTick prevPos ropePos).winner = Winner.left then 16
        else if (scoreTick prevPos ropePos).terminal = true ∧
          (scoreTick prevPos ropePos).winner = Winner.right then -16
        else 0) := by
  unfold scoreTick terminalCheck shapingRewards
  by_cases h1 : ropePos ≤ -ropeWinThreshold
  · simp only [h1, if_true]
    refine ⟨?_, ?_, ?_, ?_⟩ <;> simp <;> ring
  · by_cases h2 : ropePos ≥ ropeWinThreshold
    · simp only [h1, h2, if_true, if_false]
      refine ⟨?_, ?_, ?_, ?_⟩ <;> simp <;> ring
    · simp only [h1, h2, if_false]
      refine ⟨?_, ?_, ?_, ?_⟩ <;> simp <;> ring

/-! ## Learner: the update rule -/

theorem QTables.get_set_same (t : QTables) (team : Team) (s : Fin bins) (a : Fin 3) (v : ℚ) :
    (t.set team s a v).get team s a = v := by
  cases team <;> simp [QTables.set, QTables.get]

theorem updateQ_entry (tabs : QTables) (team : Team) (s nextState : Fin bins) (a : Fin 3)
    (r : ℚ) (terminal : Bool) :
    (updateQ tabs s nextState terminal team a r).get team s a =
      tabs.get team s a +
        alpha * ((r + (if terminal then 0 else gamma * maxQ tabs team nextState)) -
          tabs.get team s a) := by
  unfold updateQ
  exact QTables.get_set_same _ _ _ _ _

/-- C9: for every table, team, pre-step state `s`, action `a`, reward `r`, post-step state
and terminal flag, the update sets `table[s][a]` to `old + alpha * (target - old)` with
`alpha = 0.25`, where `old` is the prior value of `table[s][a]` and `target` is `r` when
terminal and `r + gamma * m` otherwise, with `gamma = 0.9` and `m` the maximum of the same
team's row for the post-step state in the table as it is before the write (`m` is at least
every entry of that row and is one of them). -/
theorem updateQ_rule (tabs : QTables) (team : Team) (s nextState : Fin bins) (a : Fin 3)
    (r : ℚ) (terminal : Bool) :
    (updateQ tabs s nextState terminal team a r).get team s a =
      tabs.get team s a +
        alpha * ((if terminal then r else r + gamma * maxQ tabs team nextState) -
          tabs.get team s a) ∧
    (∀ j : Fin 3, tabs.get team nextState j ≤ maxQ tabs team nextState) ∧
    (∃ j : Fin 3, tabs.get team nextState j = maxQ tabs team nextState) ∧
    alpha = 1 / 4 ∧ gamma = 9 / 10 := by
  refine ⟨?_, ?_, ?_, by norm_num [alpha], by norm_num [gamma]⟩
  · rw [updateQ_entry]
    cases terminal <;> simp
  · intro j
    rw [maxQ_eq_best]
    exact bestAction_max _ j
  · exact ⟨bestAction (tabs.get team nextState), (maxQ_eq_best tabs team nextState).symm⟩

theorem totalForce_fin (l r : Fin 3) :
    totalForce l.val r.val = Value.num (specNetForce l r) := by
  fin_cases l <;> fin_cases r <;>
    simp [totalForce, actionForce, Value.scale, Value.add, Value.neg, specNetForce,
      specBase] <;> norm_num

theorem physicsTick_fin (rope : Rope) (l r : Fin 3) :
    physicsTick rope l.val r.val = some (integrate rope (specNetForce l r)) := by
  unfold physicsTick
  rw [totalForce_fin]

theorem trainTick_fin (rope : Rope) (tabs : QTables) (la ra : Fin 3) :
    trainTick rope tabs la ra =
      some ⟨integrate rope (specNetForce la ra),
        learn tabs (stateBin rope.ropePos)
          (stateBin (integrate rope (specNetForce la ra)).ropePos)
          (scoreTick rope.ropePos (integrate rope (specNetForce la ra)).ropePos) la ra,
        (scoreTick rope.ropePos (integrate rope (specNetForce la ra)).ropePos).terminal,
        (scoreTick rope.ropePos (integrate rope (specNetForce la ra)).ropePos).winner⟩ := by
  unfold trainTick
  rw [physicsTick_fin]
  rfl

theorem updateQ_left_right (tabs : QTables) (s nextState : Fin bins) (terminal : Bool)
    (a : Fin 3) (r : ℚ) :
    (updateQ tabs s nextState terminal Team.left a r).right = tabs.right := rfl

theorem updateQ_right_left (tabs : QTables) (s nextState : Fin bins) (terminal : Bool)
    (a : Fin 3) (r : ℚ) :
    (updateQ tabs s nextState terminal Team.right a r).left = tabs.left := rfl

theorem updateQ_left_other (tabs : QTables) (s nextState : Fin bins) (terminal : Bool)
    (a : Fin 3) (r : ℚ) (s2 : Fin bins) (a2 : Fin 3) (h : s2 ≠ s ∨ a2 ≠ a) :
    (updateQ tabs s nextState terminal Team.left a r).left s2 a2 = tabs.left s2 a2 := by
  show Function.update tabs.left s (Function.update (tabs.left s) a _) s2 a2 = _
  by_cases hs : s2 = s
  · subst hs
    have ha : a2 ≠ a := by
      rcases h with h | h
      · exact absurd rfl h
      · exact h
    rw [Function.update_same, Function.update_noteq ha]
  · rw [Function.update_noteq hs]

theorem updateQ_right_other (tabs : QTables) (s nextState : Fin bins) (terminal : Bool)
    (a : Fin 3) (r : ℚ) (s2 : Fin bins) (a2 : Fin 3) (h : s2 ≠ s ∨ a2 ≠ a) :
    (updateQ tabs s nextState terminal Team.right a r).right s2 a2 = tabs.right s2 a2 := by
  show Function.update tabs.right s (Function.update (tabs.right s) a _) s2 a2 = _
  by_cases hs : s2 = s
  · subst hs
    have ha : a2 ≠ a := by
      rcases h with h | h
      · exact absurd rfl h
      · exact h
    rw [Function.update_same, Function.update_noteq ha]
  · rw [Function.update_noteq hs]

/-- C11: one training tick changes at most the entry `[state][leftAction]` of the left
table and the entry `[state][rightAction]` of the right table, `state` being the index of
the pre-step position: every other entry of both tables is as before. The update of the
left team leaves the whole right table as it is, and the update of the right team the whole
left table. -/
theorem trainTick_frame (rope : Rope) (tabs : QTables) (leftAction rightAction : Fin 3)
    (t : Tick) (h : trainTick rope tabs leftAction rightAction = some t) :
    (∀ (s : Fin bins) (a : Fin 3), (s ≠ stateBin rope.ropePos ∨ a ≠ leftAction) →
      t.qTables.left s a = tabs.left s a) ∧
    (∀ (s : Fin bins) (a : Fin 3), (s ≠ stateBin rope.ropePos ∨ a ≠ rightAction) →
      t.qTables.right s a = tabs.right s a) ∧
    (∀ (tb : QTables) (s nextState : Fin bins) (terminal : Bool) (a : Fin 3) (r : ℚ),
      (updateQ tb s nextState terminal Team.left a r).right = tb.right) ∧
    (∀ (tb : QTables) (s nextState : Fin bins) (terminal : Bool) (a : Fin 3) (r : ℚ),
      (updateQ tb s nextState terminal Team.right a r).left = tb.left) := by
  rw [trainTick_fin] at h
  simp only [Option.some.injEq] at h
  subst h
  refine ⟨?_, ?_, fun _ _ _ _ _ _ => rfl, fun _ _ _ _ _ _ => rfl⟩
  · intro s a hsa
    show (learn _ _ _ _ _ _).left s a = _
    unfold learn
    rw [updateQ_right_left, updateQ_left_other _ _ _ _ _ _ _ _ hsa]
  · intro s a hsa
    show (learn _ _ _ _ _ _).right s a = _
    unfold learn
    rw [updateQ_right_other _ _ _ _ _ _ _ _ hsa, updateQ_left_right]

/-- Witness for C11: in the tick from `{0, 0}` on the zero tables in which left rests
(action `2`) and right pulls, the entry `[state][0]` of the left table is untouched. -/
theorem trainTick_frame_witness :
    trainTick ⟨0, 0⟩ initTables 2 0 =
      some ⟨integrate ⟨0, 0⟩ (specNetForce 2 0),
        learn initTables (stateBin 0) (stateBin (integrate ⟨0, 0⟩ (specNetForce 2 0)).ropePos)
          (scoreTick 0 (integrate ⟨0, 0⟩ (specNetForce 2 0)).ropePos) 2 0,
        (scoreTick 0 (integrate ⟨0, 0⟩ (specNetForce 2 0)).ropePos).terminal,
        (scoreTick 0 (integrate ⟨0, 0⟩ (specNetForce 2 0)).ropePos).winner⟩ ∧
    (learn initTables (stateBin 0) (stateBin (integrate ⟨0, 0⟩ (specNetForce 2 0)).ropePos)
        (scoreTick 0 (integrate ⟨0, 0⟩ (specNetForce 2 0)).ropePos) 2 0).left (stateBin 0) 0 =
      initTables.left (stateBin 0) 0 :=
  ⟨trainTick_fin ⟨0, 0⟩ initTables 2 0,
    (trainTick_frame ⟨0, 0⟩ initTables 2 0 _ (trainTick_fin ⟨0, 0⟩ initTables 2 0)).1
      (stateBin 0) 0 (Or.inr (by decide))⟩

/-! ## The episode loop -/

theorem scoreTick_terminal (p x : ℚ) (h : (scoreTick p x).terminal = true) :
    (x ≤ -120 ∧ (scoreTick p x).winner = Winner.left) ∨
    (120 ≤ x ∧ (scoreTick p x).winner = Winner.right) := by
  unfold scoreTick terminalCheck at h ⊢
  have h120 : ropeWinThreshold = 120 := rfl
  rw [h120] at h ⊢
  by_cases h1 : x ≤ -120
  · left
    simp [h1]
  · by_cases h2 : x ≥ 120
    · right
      simp [h1, h2]
    · simp [h1, h2] at h

theorem scoreTick_running (p x : ℚ) (h : (scoreTick p x).terminal = false) :
    -120 < x ∧ x < 120 := by
  unfold scoreTick terminalCheck at h
  have h120 : ropeWinThreshold = 120 := rfl
  rw [h120] at h
  by_cases h1 : x ≤ -120
  · simp [h1] at h
  · by_cases h2 : x ≥ 120
    · simp [h1, h2] at h
    · exact ⟨not_le.mp h1, not_le.mp h2⟩

theorem loopPass_some (epsilon : ℚ) (s : LoopState) :
    ∃ t : Tick,
      trainTick s.rope s.qTables
        (chooseBoth s.qTables epsilon (stateBin s.rope.ropePos) s.rng).1
        (chooseBoth s.qTables epsilon (stateBin s.rope.ropePos) s.rng).2.1 = some t ∧
      loopPass epsilon s =
        some ⟨t.rope, t.qTables,
          (chooseBoth s.qTables epsilon (stateBin s.rope.ropePos) s.rng).2.2⟩ ∧
      t.terminal = (scoreTick s.rope.ropePos t.rope.ropePos).terminal ∧
      t.winner = (scoreTick s.rope.ropePos t.rope.ropePos).winner := by
  refine ⟨_, trainTick_fin _ _ _ _, ?_, rfl, rfl⟩
  simp only [loopPass, trainTick_fin, Option.map_some']

theorem passes_succ_front (epsilon : ℚ) (k : ℕ) (s : LoopState) :
    passes epsilon (k + 1) s = (loopPass epsilon s).bind (passes epsilon k) := by
  induction k with
  | zero =>
    show loopPass epsilon s = (loopPass epsilon s).bind (passes epsilon 0)
    cases loopPass epsilon s <;> rfl
  | succ k ih =>
    show (passes epsilon (k + 1) s).bind (loopPass epsilon) = _
    rw [ih]
    cases loopPass epsilon s <;> rfl

theorem passes_some (epsilon : ℚ) (k : ℕ) (s : LoopState) :
    ∃ sk, passes epsilon k s = some sk := by
  induction k with
  | zero => exact ⟨s, rfl⟩
  | succ k ih =>
    obtain ⟨sk, hk⟩ := ih
    obtain ⟨t, _, hp, _, _⟩ := loopPass_some epsilon sk
    exact ⟨_, by show (passes epsilon k s).bind (loopPass epsilon) = _; rw [hk]; exact hp⟩

theorem episodeLoop_char (epsilon : ℚ) (stats : Stats) (n : ℕ) :
    ∀ (step : ℕ) (s : LoopState),
    (∃ (k : ℕ) (sk : LoopState) (w : Winner), 1 ≤ k ∧ k ≤ n ∧
      passes epsilon k s = some sk ∧
      (∀ j, 1 ≤ j → j < k →
        ∃ sj, passes epsilon j s = some sj ∧ -120 < sj.rope.ropePos ∧ sj.rope.ropePos < 120) ∧
      ((sk.rope.ropePos ≤ -120 ∧ w = Winner.left) ∨
        (120 ≤ sk.rope.ropePos ∧ w = Winner.right)) ∧
      episodeLoop n step s.rope ⟨s.qTables, epsilon, stats, s.rng⟩ =
        some (w, ⟨sk.qTables, epsilon,
          ⟨stats.episodes, stats.leftWins, stats.rightWins, step + k⟩, sk.rng⟩)) ∨
    (∃ sn : LoopState, passes epsilon n s = some sn ∧
      (∀ j, 1 ≤ j → j ≤ n →
        ∃ sj, passes epsilon j s = some sj ∧ -120 < sj.rope.ropePos ∧ sj.rope.ropePos < 120) ∧
      episodeLoop n step s.rope ⟨s.qTables, epsilon, stats, s.rng⟩ =
        some (Winner.draw, ⟨sn.qTables, epsilon,
          ⟨stats.episodes, stats.leftWins, stats.rightWins, maxSteps⟩, sn.rng⟩)) := by
  induction n with
  | zero =>
    intro step s
    right
    exact ⟨s, rfl, fun j h1 h2 => absurd h1 (by omega), rfl⟩
  | succ n ih =>
    intro step s
    obtain ⟨t, ht, hp, hterm, hwin⟩ := loopPass_some epsilon s
    have hfront : ∀ j, passes epsilon (j + 1) s =
        passes epsilon j
          ⟨t.rope, t.qTables,
            (chooseBoth s.qTables epsilon (stateBin s.rope.ropePos) s.rng).2.2⟩ := by
      intro j
      rw [passes_succ_front, hp]
      rfl
    have hloop : episodeLoop (n + 1) step s.rope ⟨s.qTables, epsilon, stats, s.rng⟩ =
        if t.terminal then
          some (t.winner, ⟨t.qTables, epsilon,
            ⟨stats.episodes, stats.leftWins, stats.rightWins, step + 1⟩,
            (chooseBoth s.qTables epsilon (stateBin s.rope.ropePos) s.rng).2.2⟩)
        else
          episodeLoop n (step + 1) t.rope
            ⟨t.qTables, epsilon, stats,
              (chooseBoth s.qTables epsilon (stateBin s.rope.ropePos) s.rng).2.2⟩ := by
      simp only [episodeLoop, ht, Option.some_bind]
    cases hT : t.terminal with
    | true =>
      left
      rw [hterm] at hT
      refine ⟨1, _, t.winner, le_refl 1, by omega, hfront 0, fun j h1 h2 => absurd h1 (by omega),
        ?_, ?_⟩
      · show (t.rope.ropePos ≤ -120 ∧ _) ∨ (120 ≤ t.rope.ropePos ∧ _)
        rw [hwin]
        exact scoreTick_terminal _ _ hT
      · rw [hloop, hterm, hT]
        rfl
    | false =>
      have hrun1 := scoreTick_running s.rope.ropePos t.rope.ropePos (by rw [← hterm]; exact hT)
      have hstep : ∀ j, 1 ≤ j → j ≤ n + 1 →
          (∀ i, 1 ≤ i → i < j → ∃ si, passes epsilon i
            ⟨t.rope, t.qTables,
              (chooseBoth s.qTables epsilon (stateBin s.rope.ropePos) s.rng).2.2⟩ = some si ∧
            -120 < si.rope.ropePos ∧ si.rope.ropePos < 120) →
          ∃ sj, passes epsilon j s = some sj ∧ -120 < sj.rope.ropePos ∧
            sj.rope.ropePos < 120 := by
        intro j h1 _ hprev
        obtain ⟨i, rfl⟩ : ∃ i, j = i + 1 := ⟨j - 1, by omega⟩
        rw [hfront]
        cases i with
        | zero => exact ⟨_, rfl, hrun1⟩
        | succ i => exact hprev (i + 1) (by omega) (by omega)
      rcases ih (step + 1)
          ⟨t.rope, t.qTables, (chooseBoth s.qTables epsilon (stateBin s.rope.ropePos) s.rng).2.2⟩
        with ⟨k, sk, w, hk1, hkn, hpk, hrun, hw, he⟩ | ⟨sn, hpn, hrun, he⟩
      · left
        refine ⟨k + 1, sk, w, by omega, by omega, by rw [hfront]; exact hpk, ?_, hw, ?_⟩
        · intro j h1 h2
          exact hstep j h1 (by omega) (fun i hi1 hi2 => hrun i hi1 (by omega))
        · rw [hloop, hT]
          have harith : step + (k + 1) = step + 1 + k := by omega
          rw [harith]
          exact he
      · right
        refine ⟨sn, by rw [hfront]; exact hpn, ?_, ?_⟩
        · intro j h1 h2
          exact hstep j h1 h2 (fun i hi1 hi2 => hrun i hi1 (by omega))
        · rw [hloop, hT]
          exact he

/-- C12: for every engine state (tables, `epsilon`, random stream), `runEpisode` starts from
the rope `{0, 0}`, returns, and returns one of `'left'`, `'right'`, `'draw'`. Either some
tick `k` with `1 ≤ k ≤ 320` is the first whose post-step position crosses a win threshold,
and `runEpisode` returns that tick's winner (`'left'` at or below `-120`, `'right'` at or
above `120`) with `stats.lastEpisodeSteps = k`; or none of the `320` ticks crosses one, and
it returns `'draw'` with `stats.lastEpisodeSteps = 320`. It returns `'draw'` exactly when no
tick crosses a threshold. -/
theorem runEpisode_outcome (e : Engine) :
    (episodeStart e).rope = ⟨0, 0⟩ ∧ maxSteps = 320 ∧
    (∃ (w : Winner) (e' : Engine), runEpisode e = some (w, e') ∧
      (w = Winner.left ∨ w = Winner.right ∨ w = Winner.draw)) ∧
    ((∃ (k : ℕ) (sk : LoopState) (w : Winner), 1 ≤ k ∧ k ≤ 320 ∧
        passes e.epsilon k (episodeStart e) = some sk ∧
        (∀ j, 1 ≤ j → j < k →
          ∃ sj, passes e.epsilon j (episodeStart e) = some sj ∧
            -120 < sj.rope.ropePos ∧ sj.rope.ropePos < 120) ∧
        ((sk.rope.ropePos ≤ -120 ∧ w = Winner.left) ∨
          (120 ≤ sk.rope.ropePos ∧ w = Winner.right)) ∧
        runEpisode e =
          some (w, ⟨sk.qTables, e.epsilon,
            ⟨e.stats.episodes, e.stats.leftWins, e.stats.rightWins, k⟩, sk.rng⟩)) ∨
      (∃ sn : LoopState, passes e.epsilon 320 (episodeStart e) = some sn ∧
        (∀ j, 1 ≤ j → j ≤ 320 →
          ∃ sj, passes e.epsilon j (episodeStart e) = some sj ∧
            -120 < sj.rope.ropePos ∧ sj.rope.ropePos < 120) ∧
        runEpisode e =
          some (Winner.draw, ⟨sn.qTables, e.epsilon,
            ⟨e.stats.episodes, e.stats.leftWins, e.stats.rightWins, 320⟩, sn.rng⟩))) ∧
    ((∃ e' : Engine, runEpisode e = some (Winner.draw, e')) ↔
      ∀ j, 1 ≤ j → j ≤ 320 →
        ∃ sj, passes e.epsilon j (episodeStart e) = some sj ∧
          -120 < sj.rope.ropePos ∧ sj.rope.ropePos < 120) := by
  have hchar := episodeLoop_char e.epsilon e.stats 320 0 (episodeStart e)
  have hrun : runEpisode e =
      episodeLoop 320 0 (episodeStart e).rope
        ⟨(episodeStart e).qTables, e.epsilon, e.stats, (episodeStart e).rng⟩ := rfl
  rw [← hrun] at hchar
  simp only [Nat.zero_add] at hchar
  have hmax : maxSteps = 320 := rfl
  rw [hmax] at hchar
  refine ⟨rfl, rfl, ?_, hchar, ?_⟩
  · rcases hchar with ⟨k, sk, w, _, _, _, _, hw, he⟩ | ⟨sn, _, _, he⟩
    · refine ⟨w, _, he, ?_⟩
      rcases hw with ⟨_, hw⟩ | ⟨_, hw⟩
      · exact Or.inl hw
      · exact Or.inr (Or.inl hw)
    · exact ⟨Winner.draw, _, he, Or.inr (Or.inr rfl)⟩
  · constructor
    · rintro ⟨e', hd⟩
      rcases hchar with ⟨k, sk, w, _, _, _, _, hw, he⟩ | ⟨sn, _, hall, _⟩
      · rw [he] at hd
        simp only [Option.some.injEq, Prod.mk.injEq] at hd
        rcases hw with ⟨_, hw⟩ | ⟨_, hw⟩ <;> rw [hw] at hd <;> exact absurd hd.1 (by decide)
      · exact hall
    · intro hall
      rcases hchar with ⟨k, sk, w, hk1, hk2, hpk, _, hw, _⟩ | ⟨sn, _, _, he⟩
      · obtain ⟨sj, hsj, hlo, hhi⟩ := hall k hk1 hk2
        rw [hpk] at hsj
        simp only [Option.some.injEq] at hsj
        subst hsj
        rcases hw with ⟨hc, _⟩ | ⟨hc, _⟩ <;> linarith
      · exact ⟨_, he⟩

/-! ## Training driver: statistics -/

theorem runEpisode_stats (e : Engine) :
    ∃ (w : Winner) (e' : Engine), runEpisode e = some (w, e') ∧
      (w = Winner.left ∨ w = Winner.right ∨ w = Winner.draw) ∧
      e'.epsilon = e.epsilon ∧
      e'.stats.episodes = e.stats.episodes ∧
      e'.stats.leftWins = e.stats.leftWins ∧
      e'.stats.rightWins = e.stats.rightWins := by
  have hrun : runEpisode e =
      episodeLoop maxSteps 0 (episodeStart e).rope
        ⟨(episodeStart e).qTables, e.epsilon, e.stats, (episodeStart e).rng⟩ := rfl
  rcases episodeLoop_char e.epsilon e.stats maxSteps 0 (episodeStart e) with
    ⟨k, sk, w, _, _, _, _, hw, he⟩ | ⟨sn, _, _, he⟩
  · refine ⟨w, _, hrun.trans he, ?_, rfl, rfl, rfl, rfl⟩
    rcases hw with ⟨_, hw⟩ | ⟨_, hw⟩
    · exact Or.inl hw
    · exact Or.inr (Or.inl hw)
  · exact ⟨Winner.draw, _, hrun.trans he, Or.inr (Or.inr rfl), rfl, rfl, rfl, rfl⟩

theorem trainOne_stats (e : Engine) :
    ∃ (w : Winner) (e1 : Engine), trainOne e = some (w, e1) ∧
      e1.epsilon = e.epsilon ∧
      e1.stats.episodes = e.stats.episodes + 1 ∧
      ((w = Winner.left ∧ e1.stats.leftWins = e.stats.leftWins + 1 ∧
          e1.stats.rightWins = e.stats.rightWins) ∨
        (w = Winner.right ∧ e1.stats.leftWins = e.stats.leftWins ∧
          e1.stats.rightWins = e.stats.rightWins + 1) ∨
        (w = Winner.draw ∧ e1.stats.leftWins = e.stats.leftWins ∧
          e1.stats.rightWins = e.stats.rightWins)) := by
  obtain ⟨w, e', hr, hw, heps, hep, hl, hrw⟩ := runEpisode_stats e
  have h1 : ∃ e1 : Engine, trainOne e = some (w, e1) ∧ e1.epsilon = e'.epsilon ∧
      e1.stats.episodes = e'.stats.episodes + 1 ∧
      e1.stats.leftWins =
        (if w = Winner.left then e'.stats.leftWins + 1 else e'.stats.leftWins) ∧
      e1.stats.rightWins =
        (if w = Winner.left then e'.stats.rightWins
          else if w = Winner.right then e'.stats.rightWins + 1 else e'.stats.rightWins) := by
    unfold trainOne
    rw [hr]
    exact ⟨_, rfl, rfl, rfl, rfl, rfl⟩
  obtain ⟨e1, h1, h1eps, h1ep, h1l, h1r⟩ := h1
  refine ⟨w, e1, h1, h1eps.trans heps, by rw [h1ep, hep], ?_⟩
  rw [h1l, h1r, hl, hrw]
  rcases hw with hw | hw | hw <;> subst hw
  · exact Or.inl ⟨rfl, by simp, by simp⟩
  · exact Or.inr (Or.inl ⟨rfl, by simp, by simp⟩)
  · exact Or.inr (Or.inr ⟨rfl, by simp, by simp⟩)

theorem trainLoop_stats (n : ℕ) :
    ∀ e : Engine, ∃ (ws : List Winner) (e' : Engine), trainLoop n e = some (ws, e') ∧
      ws.length = n ∧
      e'.stats.episodes = e.stats.episodes + n ∧
      e'.stats.leftWins = e.stats.leftWins + ws.count Winner.left ∧
      e'.stats.rightWins = e.stats.rightWins + ws.count Winner.right ∧
      ws.count Winner.left + ws.count Winner.right + ws.count Winner.draw = n := by
  induction n with
  | zero =>
    intro e
    exact ⟨[], e, rfl, rfl, rfl, rfl, rfl, rfl⟩
  | succ n ih =>
    intro e
    obtain ⟨w, e1, h1, _, hep, hw⟩ := trainOne_stats e
    obtain ⟨ws, e', hl, hlen, hep', hlw, hrw, hcount⟩ := ih e1
    refine ⟨w :: ws, e', ?_, by simp [hlen], by rw [hep', hep]; omega, ?_, ?_, ?_⟩
    · show (trainOne e).bind _ = _
      rw [h1]
      show (trainLoop n e1).map _ = _
      rw [hl]
      rfl
    · rcases hw with ⟨hw, h2, _⟩ | ⟨hw, h2, _⟩ | ⟨hw, h2, _⟩ <;> subst hw <;>
        first
          | (simp [List.count_cons, hlw, h2]; done)
          | (simp [List.count_cons, hlw, h2]; omega)
    · rcases hw with ⟨hw, _, h2⟩ | ⟨hw, _, h2⟩ | ⟨hw, _, h2⟩ <;> subst hw <;>
        first
          | (simp [List.count_cons, hrw, h2]; done)
          | (simp [List.count_cons, hrw, h2]; omega)
    · rcases hw with ⟨hw, _, _⟩ | ⟨hw, _, _⟩ | ⟨hw, _, _⟩ <;> subst hw <;>
        simp [List.count_cons] <;> omega

/-- C13: `trainEpisodes(N)` from the zero tables and zero statistics, for every `N`
(`N = 10000` included), every `epsilon` and every random stream, runs to its end and leaves
`stats.episodes = N` and `leftWins + rightWins + draws = N`, where `draws` counts the
episodes that returned `'draw'` (and `leftWins`, `rightWins` those that returned `'left'`,
`'right'`). From any engine state, one episode of the loop adds one to `stats.episodes` and
one to at most one of `leftWins` and `rightWins`. -/
theorem trainEpisodes_stats (n : ℕ) (epsilon : ℚ) (rng : Rng) (e : Engine) :
    (∃ (ws : List Winner) (e' : Engine),
      trainEpisodes n ⟨initTables, epsilon, ⟨0, 0, 0, 0⟩, rng⟩ = some (ws, e') ∧
      ws.length = n ∧
      e'.stats.episodes = n ∧
      e'.stats.leftWins = ws.count Winner.left ∧
      e'.stats.rightWins = ws.count Winner.right ∧
      e'.stats.leftWins + e'.stats.rightWins + ws.count Winner.draw = n) ∧
    (∃ (w : Winner) (e1 : Engine), trainOne e = some (w, e1) ∧
      e1.stats.episodes = e.stats.episodes + 1 ∧
      ((w = Winner.left ∧ e1.stats.leftWins = e.stats.leftWins + 1 ∧
          e1.stats.rightWins = e.stats.rightWins) ∨
        (w = Winner.right ∧ e1.stats.leftWins = e.stats.leftWins ∧
          e1.stats.rightWins = e.stats.rightWins + 1) ∨
        (w = Winner.draw ∧ e1.stats.leftWins = e.stats.leftWins ∧
          e1.stats.rightWins = e.stats.rightWins))) := by
  constructor
  · obtain ⟨ws, e', hl, hlen, hep, hlw, hrw, hcount⟩ :=
      trainLoop_stats n ⟨initTables, max (5 / 100) (epsilon * (98 / 100)), ⟨0, 0, 0, 0⟩, rng⟩
    simp only [Nat.zero_add] at hep hlw hrw
    exact ⟨ws, e', hl, hlen, hep, hlw, hrw, by rw [hlw, hrw]; exact hcount⟩
  · obtain ⟨w, e1, h1, _, hep, hw⟩ := trainOne_stats e
    exact ⟨w, e1, h1, hep, hw⟩

/-! ## Scenarios: right gains ground, a rope beyond the threshold -/

theorem specNetForce_bounds (l r : Fin 3) :
    -(16 / 5) ≤ specNetForce l r ∧ specNetForce l r ≤ 16 / 5 := by
  fin_cases l <;> fin_cases r <;> simp [specNetForce, specBase] <;> norm_num

/-- C15: from the rope at position `130` with velocity `0`, for every tables and every pair
of actions, the first training tick ends terminal with winner `'right'` (the post-step
position is still at or above `120`), and the first demo step, whatever the greedy choices,
takes the terminal branch of line 191 with the rope at or above `120`. The terminal check
itself classifies position `130` as terminal with winner `'right'`. -/
theorem terminal_at_130 (tabs : QTables) (leftAction rightAction : Fin 3) (epsilon : ℚ)
    (rng : Rng) (leftReward rightReward : ℚ) :
    (∃ t : Tick, trainTick ⟨130, 0⟩ tabs leftAction rightAction = some t ∧
      t.terminal = true ∧ t.winner = Winner.right ∧ ropeWinThreshold ≤ t.rope.ropePos) ∧
    (∃ next : Rope, demoStep tabs epsilon rng ⟨130, 0⟩ = some (next, true) ∧
      ropeWinThreshold ≤ next.ropePos) ∧
    ((terminalCheck 130 leftReward rightReward).terminal = true ∧
      (terminalCheck 130 leftReward rightReward).winner = Winner.right) ∧
    ropeWinThreshold = 120 := by
  have hpos : ∀ l r : Fin 3, (120 : ℚ) ≤ (integrate ⟨130, 0⟩ (specNetForce l r)).ropePos := by
    intro l r
    show (120 : ℚ) ≤ 130 + (0 + specNetForce l r * dt) * friction
    have hb := (specNetForce_bounds l r).1
    norm_num [dt, friction]
    linarith
  have hsc : ∀ (p x : ℚ), 120 ≤ x →
      (scoreTick p x).terminal = true ∧ (scoreTick p x).winner = Winner.right := by
    intro p x hx
    unfold scoreTick terminalCheck
    have h120 : ropeWinThreshold = 120 := rfl
    rw [h120]
    have h1 : ¬ x ≤ -120 := by intro h; linarith
    simp [h1, hx]
  refine ⟨?_, ?_, ?_, rfl⟩
  · refine ⟨_, trainTick_fin _ _ _ _, ?_, ?_, ?_⟩
    · exact (hsc _ _ (hpos leftAction rightAction)).1
    · exact (hsc _ _ (hpos leftAction rightAction)).2
    · exact hpos leftAction rightAction
  · refine ⟨integrate ⟨130, 0⟩
      (specNetForce (bestAction (tabs.get Team.left (stateBin 130)))
        (bestAction (tabs.get Team.right (stateBin 130)))), ?_, hpos _ _⟩
    have h := hpos (bestAction (tabs.get Team.left (stateBin 130)))
      (bestAction (tabs.get Team.right (stateBin 130)))
    have h120 : ropeWinThreshold = 120 := rfl
    simp only [demoStep, chooseAction, if_true, physicsTick_fin, Option.map_some', h120]
    simp [h]
  · unfold terminalCheck
    have h120 : ropeWinThreshold = 120 := rfl
    rw [h120]
    norm_num

/-! ## Action indices outside the force table -/

/-- C17: with `greedy = false` and the draws `u1`, `u2` (the next two values of
`Math.random()`): if `u1 < epsilon` the result is `floor(3 * u2)`, an index in `{0, 1, 2}`
that is the same for every table, team and state; if `u1 ≥ epsilon` the result is the greedy
choice `chooseAction(team, state, true)` on the same table. -/
theorem chooseAction_explore (tabs : QTables) (epsilon : ℚ) (team : Team) (s : Fin bins)
    (rng : Rng) :
    ((rng 0).val < epsilon →
      (((chooseAction tabs epsilon team s false rng).1.val : ℕ) : ℤ) = ⌊3 * (rng 1).val⌋ ∧
      (chooseAction tabs epsilon team s false rng).1.val < 3 ∧
      (∀ (tabs' : QTables) (team' : Team) (s' : Fin bins),
        (chooseAction tabs' epsilon team' s' false rng).1 =
          (chooseAction tabs epsilon team s false rng).1)) ∧
    (epsilon ≤ (rng 0).val →
      (chooseAction tabs epsilon team s false rng).1 =
        (chooseAction tabs epsilon team s true rng).1) := by
  constructor
  · intro h
    have hc : ∀ (t : QTables) (tm : Team) (b : Fin bins),
        (chooseAction t epsilon tm b false rng).1 = randomAction (rng 1) := by
      intro t tm b
      have h' : (rng.next.1).val < epsilon := h
      simp only [chooseAction, h', if_true]
      rfl
    refine ⟨?_, Fin.is_lt _, fun t tm b => by rw [hc, hc]⟩
    rw [hc]
    show ((⌊(rng 1).val * 3⌋.toNat : ℕ) : ℤ) = ⌊3 * (rng 1).val⌋
    have h0 : 0 ≤ ⌊(rng 1).val * 3⌋ := Int.floor_nonneg.mpr (by have := (rng 1).property.1; linarith)
    rw [Int.toNat_of_nonneg h0, mul_comm]
  · intro h
    have h' : ¬ (rng.next.1).val < epsilon := not_lt.mpr h
    simp only [chooseAction, h', if_false]
    rfl

/-- Witness for C17: every draw is `1/2`. With `epsilon = 3/4` the first draw is below
`epsilon` and the result is `floor(3 * 1/2) = 1`; with `epsilon = 0.18` it is not, and the
result is the greedy choice. -/
theorem chooseAction_explore_witness :
    ((halfRng 0).val < 3 / 4 ∧
      (((chooseAction initTables (3 / 4) Team.left (stateBin 0) false halfRng).1.val : ℕ) : ℤ) =
        ⌊3 * (halfRng 1).val⌋) ∧
    ((18 / 100 : ℚ) ≤ (halfRng 0).val ∧
      (chooseAction initTables (18 / 100) Team.left (stateBin 0) false halfRng).1 =
        (chooseAction initTables (18 / 100) Team.left (stateBin 0) true halfRng).1) :=
  ⟨⟨by norm_num [halfRng],
      ((chooseAction_explore initTables (3 / 4) Team.left (stateBin 0) halfRng).1
        (by norm_num [halfRng])).1⟩,
    ⟨by norm_num [halfRng],
      (chooseAction_explore initTables (18 / 100) Team.left (stateBin 0) halfRng).2
        (by norm_num [halfRng])⟩⟩

/-! ## Physics stays inside the discretizer's range -/

theorem integrate_bound (rope : Rope) (force : ℚ) (hv : |rope.ropeVel| ≤ 2944 / 1000)
    (hF : -(16 / 5) ≤ force ∧ force ≤ 16 / 5) :
    |(integrate rope force).ropeVel| ≤ 2944 / 1000 ∧
    (integrate rope force).ropePos = rope.ropePos + (integrate rope force).ropeVel := by
  refine ⟨?_, rfl⟩
  show |(rope.ropeVel + force * dt) * friction| ≤ 2944 / 1000
  rw [abs_le] at hv ⊢
  obtain ⟨hv1, hv2⟩ := hv
  obtain ⟨hF1, hF2⟩ := hF
  norm_num [dt, friction]
  constructor <;> linarith

theorem clamp_inside (x : ℚ) (h : |x| < ropeRange) : clamp x (-ropeRange) ropeRange = x := by
  rw [abs_lt] at h
  unfold clamp
  rw [max_eq_left h.1.le, min_eq_left h.2.le]

theorem near_running_inside (x v : ℚ) (hx : -120 < x ∧ x < 120) (hv : |v| ≤ 2944 / 1000) :
    |x + v| < ropeRange := by
  rw [abs_le] at hv
  rw [abs_lt]
  have h140 : ropeRange = 140 := rfl
  rw [h140]
  constructor <;> linarith [hx.1, hx.2, hv.1, hv.2]

theorem ropeTrace_inv (acts : ℕ → Fin 3 × Fin 3) (k : ℕ) :
    ∃ rope : Rope, ropeTrace acts k = some rope ∧ |rope.ropeVel| ≤ 2944 / 1000 := by
  induction k with
  | zero => exact ⟨⟨0, 0⟩, rfl, by norm_num⟩
  | succ k ih =>
    obtain ⟨rope, hk, hv⟩ := ih
    refine ⟨integrate rope (specNetForce (acts k).1 (acts k).2), ?_,
      (integrate_bound rope _ hv (specNetForce_bounds _ _)).1⟩
    show (ropeTrace acts k).bind _ = _
    rw [hk]
    exact physicsTick_fin rope _ _

theorem loopPass_eq (epsilon : ℚ) (s : LoopState) :
    ∃ (s' : LoopState) (la ra : Fin 3), loopPass epsilon s = some s' ∧
      s'.rope = integrate s.rope (specNetForce la ra) ∧
      s'.qTables =
        learn s.qTables (stateBin s.rope.ropePos) (stateBin s'.rope.ropePos)
          (scoreTick s.rope.ropePos s'.rope.ropePos) la ra := by
  obtain ⟨t, ht, hp, _, _⟩ := loopPass_some epsilon s
  rw [trainTick_fin] at ht
  simp only [Option.some.injEq] at ht
  subst ht
  exact ⟨_, _, _, hp, rfl, rfl⟩

theorem passes_vel (epsilon : ℚ) (s : LoopState) (hs : |s.rope.ropeVel| ≤ 2944 / 1000)
    (k : ℕ) :
    ∃ sk : LoopState, passes epsilon k s = some sk ∧ |sk.rope.ropeVel| ≤ 2944 / 1000 := by
  induction k with
  | zero => exact ⟨s, rfl, hs⟩
  | succ k ih =>
    obtain ⟨sk, hk, hv⟩ := ih
    obtain ⟨s', la, ra, hp, hrope, _⟩ := loopPass_eq epsilon sk
    refine ⟨s', ?_, ?_⟩
    · show (passes epsilon k s).bind _ = _
      rw [hk]
      exact hp
    · rw [hrope]
      exact (integrate_bound sk.rope (specNetForce la ra) hv (specNetForce_bounds _ _)).1

/-- C18: from the rope `{0, 0}`, for every sequence of action pairs and every number of
ticks `k`, the velocity after tick `k` satisfies `|velocity| ≤ 2.944`
(`= friction * dt * 3.2 / (1 - friction)`); and when the episode is still running before
tick `k` (every earlier position strictly inside `(-120, 120)`), the position after tick
`k` satisfies `|position| < ropeRange = 140`, so the clamp of `discretize` leaves it as it
is. The same holds for the ticks `runEpisode` makes with the actions its policies choose. -/
theorem physics_in_range (acts : ℕ → Fin 3 × Fin 3) (e : Engine) (k : ℕ) :
    (∃ rope : Rope, ropeTrace acts k = some rope ∧ |rope.ropeVel| ≤ 2944 / 1000 ∧
      ((∀ j, j < k → ∃ rj : Rope, ropeTrace acts j = some rj ∧
          -120 < rj.ropePos ∧ rj.ropePos < 120) →
        |rope.ropePos| < ropeRange ∧
        clamp rope.ropePos (-ropeRange) ropeRange = rope.ropePos)) ∧
    (∃ sk : LoopState, passes e.epsilon k (episodeStart e) = some sk ∧
      |sk.rope.ropeVel| ≤ 2944 / 1000 ∧
      ((∀ j, j < k → ∃ sj : LoopState, passes e.epsilon j (episodeStart e) = some sj ∧
          -120 < sj.rope.ropePos ∧ sj.rope.ropePos < 120) →
        |sk.rope.ropePos| < ropeRange ∧
        clamp sk.rope.ropePos (-ropeRange) ropeRange = sk.rope.ropePos)) ∧
    (2944 / 1000 : ℚ) = friction * dt * (16 / 5) / (1 - friction) ∧ ropeRange = 140 := by
  have h0 : |(0 : ℚ)| < ropeRange := by norm_num [ropeRange]
  refine ⟨?_, ?_, by norm_num [friction, dt], rfl⟩
  · cases k with
    | zero => exact ⟨⟨0, 0⟩, rfl, by norm_num, fun _ => ⟨h0, clamp_inside 0 h0⟩⟩
    | succ k =>
      obtain ⟨rope, hk, hv⟩ := ropeTrace_inv acts k
      have hb := integrate_bound rope (specNetForce (acts k).1 (acts k).2) hv
        (specNetForce_bounds _ _)
      refine ⟨integrate rope (specNetForce (acts k).1 (acts k).2), ?_, hb.1, ?_⟩
      · show (ropeTrace acts k).bind _ = _
        rw [hk]
        exact physicsTick_fin rope _ _
      · intro hrun
        obtain ⟨rj, hrj, hlo, hhi⟩ := hrun k (Nat.lt_succ_self k)
        rw [hk] at hrj
        simp only [Option.some.injEq] at hrj
        subst hrj
        have hin : |(integrate rope (specNetForce (acts k).1 (acts k).2)).ropePos| <
            ropeRange := by
          rw [hb.2]
          exact near_running_inside _ _ ⟨hlo, hhi⟩ hb.1
        exact ⟨hin, clamp_inside _ hin⟩
  · have hs0 : |(episodeStart e).rope.ropeVel| ≤ 2944 / 1000 := by
      show |(0 : ℚ)| ≤ 2944 / 1000
      norm_num
    cases k with
    | zero => exact ⟨episodeStart e, rfl, hs0, fun _ => ⟨h0, clamp_inside 0 h0⟩⟩
    | succ k =>
      obtain ⟨sk, hk, hv⟩ := passes_vel e.epsilon (episodeStart e) hs0 k
      obtain ⟨s', la, ra, hp, hrope, _⟩ := loopPass_eq e.epsilon sk
      have hb := integrate_bound sk.rope (specNetForce la ra) hv (specNetForce_bounds _ _)
      rw [← hrope] at hb
      refine ⟨s', ?_, hb.1, ?_⟩
      · show (passes e.epsilon k (episodeStart e)).bind _ = _
        rw [hk]
        exact hp
      · intro hrun
        obtain ⟨sj, hsj, hlo, hhi⟩ := hrun k (Nat.lt_succ_self k)
        rw [hk] at hsj
        simp only [Option.some.injEq] at hsj
        subst hsj
        have hin : |s'.rope.ropePos| < ropeRange := by
          rw [hb.2]
          exact near_running_inside _ _ ⟨hlo, hhi⟩ hb.1
        exact ⟨hin, clamp_inside _ hin⟩

/-- Witness for C18: the first tick, in which left rests and right pulls; the episode is
running before it (the rope is at `0`), and after it the position is inside the range. -/
theorem physics_in_range_witness :
    (∀ j, j < 1 → ∃ rj : Rope, ropeTrace (fun _ => (2, 0)) j = some rj ∧
      -120 < rj.ropePos ∧ rj.ropePos < 120) ∧
    ∃ rope : Rope, ropeTrace (fun _ => (2, 0)) 1 = some rope ∧ |rope.ropePos| < ropeRange := by
  have h : ∀ j, j < 1 → ∃ rj : Rope, ropeTrace (fun _ => (2, 0)) j = some rj ∧
      -120 < rj.ropePos ∧ rj.ropePos < 120 := by
    intro j hj
    have hj0 : j = 0 := by omega
    subst hj0
    exact ⟨⟨0, 0⟩, rfl, by norm_num, by norm_num⟩
  obtain ⟨rope, hr, _, himp⟩ := (physics_in_range (fun _ => (2, 0)) freshEngine 1).1
  exact ⟨h, rope, hr, (himp h).1⟩

/-! ## Q-values stay bounded -/

theorem QTables.get_set (t : QTables) (team : Team) (s : Fin bins) (a : Fin 3) (v : ℚ)
    (team' : Team) (s' : Fin bins) (a' : Fin 3) :
    (t.set team s a v).get team' s' a' =
      if team' = team ∧ s' = s ∧ a' = a then v else t.get team' s' a' := by
  cases team <;> cases team' <;> simp only [QTables.set, QTables.get] <;>
    by_cases hs : s' = s <;> by_cases ha : a' = a <;>
    first
      | (subst hs; subst ha; simp)
      | (subst hs; simp [ha])
      | simp [hs, ha]

theorem scoreTick_reward_bound (p x : ℚ) (h : |x - p| ≤ 2944 / 1000) :
    |(scoreTick p x).leftReward| ≤ 13888 / 1000 ∧
    |(scoreTick p x).rightReward| ≤ 13888 / 1000 := by
  rw [abs_le] at h
  obtain ⟨h1, h2⟩ := h
  unfold scoreTick terminalCheck shapingRewards
  by_cases c1 : x ≤ -ropeWinThreshold
  · simp only [c1, if_true]
    constructor <;> rw [abs_le] <;> constructor <;> linarith
  · by_cases c2 : x ≥ ropeWinThreshold
    · simp only [c1, c2, if_true, if_false]
      constructor <;> rw [abs_le] <;> constructor <;> linarith
    · simp only [c1, c2, if_false]
      constructor <;> rw [abs_le] <;> constructor <;> linarith

theorem maxQ_bounded (tabs : QTables) (B : ℚ) (hb : tabs.BoundedBy B) (team : Team)
    (s : Fin bins) : |maxQ tabs team s| ≤ B := by
  rw [maxQ_eq_best]
  exact hb _ _ _

theorem updateQ_bounded (tabs : QTables) (hb : tabs.BoundedBy (13888 / 100))
    (s nextState : Fin bins) (terminal : Bool) (team : Team) (a : Fin 3) (r : ℚ)
    (hr : |r| ≤ 13888 / 1000) :
    (updateQ tabs s nextState terminal team a r).BoundedBy (13888 / 100) := by
  intro team' s2 a2
  unfold updateQ
  rw [QTables.get_set]
  by_cases h : team' = team ∧ s2 = s ∧ a2 = a
  · rw [if_pos h]
    have hold := hb team s a
    have hmax := maxQ_bounded tabs _ hb team nextState
    rw [abs_le] at hold hmax hr ⊢
    obtain ⟨ho1, ho2⟩ := hold
    obtain ⟨hm1, hm2⟩ := hmax
    obtain ⟨hr1, hr2⟩ := hr
    cases terminal
    · norm_num [alpha, gamma]
      constructor <;> linarith
    · norm_num [alpha]
      constructor <;> linarith
  · rw [if_neg h]
    exact hb _ _ _

theorem learn_bounded (tabs : QTables) (hb : tabs.BoundedBy (13888 / 100))
    (s nextState : Fin bins) (scored : Scored) (la ra : Fin 3)
    (hl : |scored.leftReward| ≤ 13888 / 1000) (hr : |scored.rightReward| ≤ 13888 / 1000) :
    (learn tabs s nextState scored la ra).BoundedBy (13888 / 100) := by
  unfold learn
  exact updateQ_bounded _ (updateQ_bounded _ hb _ _ _ _ _ _ hl) _ _ _ _ _ _ hr

theorem passes_bounded (epsilon : ℚ) (s : LoopState) (hs : |s.rope.ropeVel| ≤ 2944 / 1000)
    (hb : s.qTables.BoundedBy (13888 / 100)) (k : ℕ) :
    ∃ sk : LoopState, passes epsilon k s = some sk ∧ |sk.rope.ropeVel| ≤ 2944 / 1000 ∧
      sk.qTables.BoundedBy (13888 / 100) := by
  induction k with
  | zero => exact ⟨s, rfl, hs, hb⟩
  | succ k ih =>
    obtain ⟨sk, hk, hv, hbk⟩ := ih
    obtain ⟨s', la, ra, hp, hrope, htabs⟩ := loopPass_eq epsilon sk
    have hi := integrate_bound sk.rope (specNetForce la ra) hv (specNetForce_bounds _ _)
    rw [← hrope] at hi
    refine ⟨s', ?_, hi.1, ?_⟩
    · show (passes epsilon k s).bind _ = _
      rw [hk]
      exact hp
    · rw [htabs]
      have hd : |s'.rope.ropePos - sk.rope.ropePos| ≤ 2944 / 1000 := by
        rw [hi.2]
        simpa using hi.1
      have hrew := scoreTick_reward_bound sk.rope.ropePos s'.rope.ropePos hd
      exact learn_bounded _ hbk _ _ _ _ _ hrew.1 hrew.2

theorem runEpisode_bounded (e : Engine) (hb : e.qTables.BoundedBy (13888 / 100)) :
    ∃ (w : Winner) (e' : Engine), runEpisode e = some (w, e') ∧
      e'.qTables.BoundedBy (13888 / 100) := by
  have hrun : runEpisode e =
      episodeLoop maxSteps 0 (episodeStart e).rope
        ⟨(episodeStart e).qTables, e.epsilon, e.stats, (episodeStart e).rng⟩ := rfl
  have hs0 : |(episodeStart e).rope.ropeVel| ≤ 2944 / 1000 := by
    show |(0 : ℚ)| ≤ 2944 / 1000
    norm_num
  rcases episodeLoop_char e.epsilon e.stats maxSteps 0 (episodeStart e) with
    ⟨k, sk, w, _, _, hpk, _, _, he⟩ | ⟨sn, hpn, _, he⟩
  · obtain ⟨sk', hk', _, hbk⟩ := passes_bounded e.epsilon (episodeStart e) hs0 hb k
    rw [hpk] at hk'
    simp only [Option.some.injEq] at hk'
    subst hk'
    exact ⟨w, _, hrun.trans he, hbk⟩
  · obtain ⟨sn', hn', _, hbn⟩ := passes_bounded e.epsilon (episodeStart e) hs0 hb maxSteps
    rw [hpn] at hn'
    simp only [Option.some.injEq] at hn'
    subst hn'
    exact ⟨Winner.draw, _, hrun.trans he, hbn⟩

theorem trainLoop_bounded (n : ℕ) :
    ∀ e : Engine, e.qTables.BoundedBy (13888 / 100) →
      ∃ (ws : List Winner) (e' : Engine), trainLoop n e = some (ws, e') ∧
        e'.qTables.BoundedBy (13888 / 100) := by
  induction n with
  | zero =>
    intro e hb
    exact ⟨[], e, rfl, hb⟩
  | succ n ih =>
    intro e hb
    obtain ⟨w, e1, hr, hb1⟩ := runEpisode_bounded e hb
    have h1 : ∃ e2 : Engine, trainOne e = some (w, e2) ∧ e2.qTables = e1.qTables := by
      unfold trainOne
      rw [hr]
      exact ⟨_, rfl, rfl⟩
    obtain ⟨e2, h2, hq⟩ := h1
    obtain ⟨ws, e', hl, hb'⟩ := ih e2 (by rw [QTables.BoundedBy, hq]; exact hb1)
    refine ⟨w :: ws, e', ?_, hb'⟩
    show (trainOne e).bind _ = _
    rw [h2]
    show (trainLoop n e2).map _ = _
    rw [hl]
    rfl

/-- C19: starting from the all-zero tables, after `trainEpisodes(n)` for any `n`, any
`epsilon`, any statistics and any random stream, every entry `q` of both Q-tables satisfies
`|q| ≤ 138.88`, which is `Rmax / (1 - gamma)` with `Rmax = 2 * 2.944 + 8 = 13.888`. The
bound is kept by every further call: from any tables within the bound, `trainEpisodes`
returns tables within the bound. -/
theorem qvalues_bounded (n : ℕ) (epsilon : ℚ) (stats : Stats) (rng : Rng) :
    (∃ (ws : List Winner) (e' : Engine),
      trainEpisodes n ⟨initTables, epsilon, stats, rng⟩ = some (ws, e') ∧
      ∀ (team : Team) (s : Fin bins) (a : Fin 3), |e'.qTables.get team s a| ≤ 13888 / 100) ∧
    (∀ e : Engine,
      (∀ (team : Team) (s : Fin bins) (a : Fin 3), |e.qTables.get team s a| ≤ 13888 / 100) →
      ∃ (ws : List Winner) (e' : Engine), trainEpisodes n e = some (ws, e') ∧
        ∀ (team : Team) (s : Fin bins) (a : Fin 3), |e'.qTables.get team s a| ≤ 13888 / 100) ∧
    (13888 / 100 : ℚ) = (2 * (2944 / 1000) + 8) / (1 - gamma) ∧
    (2 * (2944 / 1000) + 8 : ℚ) = 13888 / 1000 := by
  have hgen : ∀ e : Engine,
      (∀ (team : Team) (s : Fin bins) (a : Fin 3), |e.qTables.get team s a| ≤ 13888 / 100) →
      ∃ (ws : List Winner) (e' : Engine), trainEpisodes n e = some (ws, e') ∧
        ∀ (team : Team) (s : Fin bins) (a : Fin 3),
          |e'.qTables.get team s a| ≤ 13888 / 100 := by
    intro e hb
    exact trainLoop_bounded n ⟨e.qTables, max (5 / 100) (e.epsilon * (98 / 100)), e.stats, e.rng⟩
      hb
  refine ⟨?_, hgen, by norm_num [gamma], by norm_num⟩
  apply hgen
  intro team s a
  cases team <;> simp [initTables, QTables.get] <;> norm_num

/-- Witness for C19: the fresh engine, whose zero tables are within the bound, and one
training episode. -/
theorem qvalues_bounded_witness :
    (∀ (team : Team) (s : Fin bins) (a : Fin 3),
      |freshEngine.qTables.get team s a| ≤ 13888 / 100) ∧
    ∃ (ws : List Winner) (e' : Engine), trainEpisodes 1 freshEngine = some (ws, e') ∧
      ∀ (team : Team) (s : Fin bins) (a : Fin 3), |e'.qTables.get team s a| ≤ 13888 / 100 := by
  have h : ∀ (team : Team) (s : Fin bins) (a : Fin 3),
      |freshEngine.qTables.get team s a| ≤ 13888 / 100 := by
    intro team s a
    cases team <;> simp [freshEngine, initTables, QTables.get] <;> norm_num
  exact ⟨h, (qvalues_bounded 1 (18 / 100) ⟨0, 0, 0, 0⟩ halfRng).2.1 freshEngine h⟩

/-! ## The demo with untrained tables -/

theorem demoStep_untrained (epsilon : ℚ) (rng : Rng) :
    demoStep initTables epsilon rng ⟨0, 0⟩ = some (⟨0, 0⟩, false) := by
  have hb : ∀ team : Team, bestAction (initTables.get team (stateBin 0)) = 0 := by
    intro team
    cases team <;> simp [bestAction_cases, initTables, QTables.get]
  have hp : physicsTick ⟨0, 0⟩ (0 : Fin 3).val (0 : Fin 3).val = some ⟨0, 0⟩ := by
    rw [physicsTick_fin]
    simp [integrate, specNetForce, specBase]
  have h120 : ropeWinThreshold = 120 := rfl
  simp only [demoStep, chooseAction, if_true, hb, hp, Option.map_some', h120]
  norm_num

/-- C20: with the untrained, all-zero tables the greedy choice of both teams is action `0`
(`pull`), the net force is `0`, and from the rope `{0, 0}` every demo tick leaves the rope
at exactly `{0, 0}`: after any number `k` of animation frames the demo has not reached a
terminal position. More generally, whenever both teams choose the same action the net force
of the tick is `0`. -/
theorem demo_untrained_stays (k : ℕ) (epsilon : ℚ) (rng : Rng) (s : Fin bins) (a : Fin 3) :
    (chooseAction initTables epsilon Team.left s true rng).1 = 0 ∧
    (chooseAction initTables epsilon Team.right s true rng).1 = 0 ∧
    actions[0]? = some "pull" ∧
    totalForce 0 0 = Value.num 0 ∧
    demoStep initTables epsilon rng ⟨0, 0⟩ = some (⟨0, 0⟩, false) ∧
    demoRun initTables epsilon rng k ⟨0, 0⟩ = some (⟨0, 0⟩, false) ∧
    totalForce a.val a.val = Value.num 0 := by
  have hsame : ∀ b : Fin 3, totalForce b.val b.val = Value.num 0 := by
    intro b
    rw [totalForce_fin]
    simp [specNetForce]
  refine ⟨?_, ?_, rfl, hsame 0, demoStep_untrained epsilon rng, ?_, hsame a⟩
  · simp [chooseAction, bestAction_cases, initTables, QTables.get]
  · simp [chooseAction, bestAction_cases, initTables, QTables.get]
  · induction k with
    | zero => rfl
    | succ k ih =>
      show (demoStep initTables epsilon rng ⟨0, 0⟩).bind _ = _
      rw [demoStep_untrained]
      exact ih

end TugOfWar
